import Mathlib

/-!
Shallow embedding of the dynamous-ai-coach RAG ingestion pipeline, closely
following the Python sources:

* `src/rag_pipeline/embeddings/qwen_client.py` — remote embedding client
  (`_batched`, `_parse_response`, `_invoke_api`, `_embed_batch`, `embed_texts`);
* `src/rag_pipeline/embeddings/local_client.py` — local embedding client;
* `src/rag_pipeline/chunking/docling_chunker.py` — `enforce_character_bounds`
  and `_split_text`;
* `src/rag_pipeline/pipeline.py` — `ingest_single_document`, `run_ingestion_job`;
* `src/rag_pipeline/persistence/supabase_store.py` — store operations and
  `has_content_changed`;
* `src/tools/ingestion_skill/service.py` — `run_ingestion_skill`.

External effects (HTTP, the SentenceTransformer model, the database) are
modelled as explicit oracles passed in as function arguments; raising an
exception is modelled with `Except`.  Machine floats never matter for the
claims below, so embedding-vector entries are an abstract type `α`.
-/

namespace DynamousRag

/-! ### Remote embedding client (`qwen_client.py`) -/

/-- Classification of the `EmbeddingError` raise sites in `qwen_client.py`:
network failure (`requests.RequestException`), HTTP status ≥ 400, invalid
JSON body, response missing both `data` and `embeddings` lists, a vector
payload that is not a sequence, a vector of the wrong dimension, and a
response whose vector count differs from the request's item count. -/
inductive ErrKind where
  | network
  | http
  | badJson
  | missingField
  | notSequence
  | dimMismatch
  | sizeMismatch
deriving DecidableEq, Repr

/-- Model of `EmbeddingError`: the message is abstracted to its `kind`; the
typed fields `status_code`, `batch_id` and `retry_count` are kept.  Batch ids
(`uuid4().hex` in Python) are modelled as the batch index. -/
structure EmbError where
  kind : ErrKind
  statusCode : Option Nat
  batchId : Nat
  retryCount : Nat
deriving DecidableEq, Repr

/-- A raw vector inside the JSON response: either not a sequence at all
(including a missing `embedding` key, which `item.get` turns into `None`),
or a list of scalar values. -/
inductive RawVec (α : Type) where
  | notSeq
  | vec (values : List α)
deriving DecidableEq, Repr

/-- Model of the JSON payload shapes `_parse_response` inspects: an optional
`data` list of (index, embedding) items and an optional top-level
`embeddings` list.  `some` means "present and a list". -/
structure Payload (α : Type) where
  dataField : Option (List (Nat × RawVec α))
  embeddingsField : Option (List (RawVec α))
deriving DecidableEq, Repr

/-- Outcome of one `session.post` call: a `requests.RequestException`, or a
response with a status code and a body (`none` models invalid JSON). -/
inductive HttpOutcome (α : Type) where
  | requestError
  | response (status : Nat) (body : Option (Payload α))

/-- Stable insertion of an indexed item after all items of smaller-or-equal
key, mirroring the stability of Python's `sorted`. -/
def insertByIndex {α : Type} (x : Nat × RawVec α) : List (Nat × RawVec α) → List (Nat × RawVec α)
  | [] => [x]
  | y :: ys => if x.1 < y.1 then x :: y :: ys else y :: insertByIndex x ys

/-- `sorted(data, key=lambda item: int(item.get("index", 0)))`. -/
def sortByIndex {α : Type} (l : List (Nat × RawVec α)) : List (Nat × RawVec α) :=
  l.foldl (fun acc x => insertByIndex x acc) []

/-- The per-vector checks of `_parse_response`: the payload must be a
sequence and have the expected dimensionality. -/
def checkVec {α : Type} (expectedDims batchId attempt : Nat) :
    RawVec α → Except EmbError (List α)
  | .notSeq => .error ⟨.notSequence, none, batchId, attempt⟩
  | .vec l =>
    if l.length = expectedDims then .ok l
    else .error ⟨.dimMismatch, none, batchId, attempt⟩

/-- Sequentially check every raw vector, stopping at the first failure, as
the `for vector in vectors_raw` loop does. -/
def checkVecs {α : Type} (expectedDims batchId attempt : Nat) :
    List (RawVec α) → Except EmbError (List (List α))
  | [] => .ok []
  | v :: vs => do
    let x ← checkVec expectedDims batchId attempt v
    let xs ← checkVecs expectedDims batchId attempt vs
    .ok (x :: xs)

/-- `QwenEmbeddingClient._parse_response`. -/
def parseResponse {α : Type} (expectedDims expectedCount batchId attempt : Nat)
    (payload : Payload α) : Except EmbError (List (List α)) := do
  let vectorsRaw : List (RawVec α) ←
    match payload.dataField with
    | some d => .ok ((sortByIndex d).map Prod.snd)
    | none =>
      match payload.embeddingsField with
      | some e => .ok e
      | none => .error ⟨.missingField, none, batchId, attempt⟩
  let vectors ← checkVecs expectedDims batchId attempt vectorsRaw
  if vectors.length = expectedCount then .ok vectors
  else .error ⟨.sizeMismatch, none, batchId, attempt⟩

/-- `QwenEmbeddingClient._invoke_api`: network failure, HTTP error (status
≥ 400), invalid JSON, or response parsing. -/
def invokeApi {α : Type} (expectedDims batchId attempt textCount : Nat)
    (outcome : HttpOutcome α) : Except EmbError (List (List α)) :=
  match outcome with
  | .requestError => .error ⟨.network, none, batchId, attempt⟩
  | .response status body =>
    if 400 ≤ status then .error ⟨.http, some status, batchId, attempt⟩
    else
      match body with
      | none => .error ⟨.badJson, some status, batchId, attempt⟩
      | some payload => parseResponse expectedDims textCount batchId attempt payload

/-- Model of `EmbeddingBatchMetrics` (`duration_ms` omitted — wall-clock
time is not modelled). -/
structure BatchMetrics where
  batchId : Nat
  itemCount : Nat
  retryCount : Nat
deriving DecidableEq, Repr

/-- The `while attempts <= self._retry_count` loop of `_embed_batch`,
with `remaining = retry_count - attempts`.  Every `EmbeddingError` is caught;
when `attempts >= retry_count` it is re-raised, otherwise the attempt counter
is incremented and the call is retried (backoff sleeping is not modelled).
The second component counts how many times `invoke` ran. -/
def embedBatchLoop {α : Type} (invoke : Nat → Except EmbError (List (List α))) :
    Nat → Nat → Except EmbError (List (List α) × Nat) × Nat
  | attempts, 0 =>
    (match invoke attempts with
     | .ok v => .ok (v, attempts)
     | .error e => .error e, 1)
  | attempts, remaining + 1 =>
    match invoke attempts with
    | .ok v => (.ok (v, attempts), 1)
    | .error _ =>
      let res := embedBatchLoop invoke (attempts + 1) remaining
      (res.1, res.2 + 1)

/-- `QwenEmbeddingClient._embed_batch` for one batch: run the retry loop and
package the success into records and metrics.  `api` maps the attempt number
to that attempt's HTTP outcome. -/
def embedBatch {α : Type} (retryCount expectedDims batchId : Nat) (texts : List String)
    (api : Nat → HttpOutcome α) :
    Except EmbError (List (List α) × BatchMetrics) × Nat :=
  let res := embedBatchLoop
    (fun attempt => invokeApi expectedDims batchId attempt texts.length (api attempt))
    0 retryCount
  (res.1.map fun p => (p.1, ⟨batchId, texts.length, p.2⟩), res.2)

/-- Fuel-indexed form of the `_batched` generator's `while start < total`
loop; fuel `≥ l.length` is always sufficient once `batchSize ≥ 1` (the
client clamps its batch size with `max(1, batch_size)`). -/
def batchedAux {α : Type} (batchSize : Nat) : Nat → List α → List (List α)
  | _, [] => []
  | 0, _ :: _ => []
  | fuel + 1, x :: xs =>
    (x :: xs).take batchSize :: batchedAux batchSize fuel ((x :: xs).drop batchSize)

/-- `_batched(sequence, batch_size)` materialised as a list of batches. -/
def batched {α : Type} (l : List α) (batchSize : Nat) : List (List α) :=
  batchedAux batchSize l.length l

/-- The `for batch in _batched(...)` loop body of `embed_texts`: one
`_embed_batch` call per batch; the first error propagates (the Python
exception aborts the whole call).  `i` is the running batch index, used as
the model's batch id.  The final component counts HTTP invocations. -/
def embedTextsGo {α : Type} (retryCount expectedDims : Nat)
    (api : Nat → Nat → HttpOutcome α) :
    List (List String) → Nat → Except EmbError (List (List α) × List BatchMetrics) × Nat
  | [], _ => (.ok ([], []), 0)
  | b :: rest, i =>
    match embedBatch retryCount expectedDims i b (api i) with
    | (.error e, c) => (.error e, c)
    | (.ok (v, m), c) =>
      match embedTextsGo retryCount expectedDims api rest (i + 1) with
      | (.error e, c2) => (.error e, c + c2)
      | (.ok (vs, ms), c2) => (.ok (v ++ vs, m :: ms), c + c2)

/-- `QwenEmbeddingClient.embed_texts`.  `batchSize` is clamped with
`max 1` exactly as the constructor does (`self._batch_size = max(1,
batch_size)`). -/
def embedTexts {α : Type} (retryCount expectedDims batchSize : Nat)
    (api : Nat → Nat → HttpOutcome α) (texts : List String) :
    Except EmbError (List (List α) × List BatchMetrics) × Nat :=
  if texts.isEmpty then (.ok ([], []), 0)
  else embedTextsGo retryCount expectedDims api (batched texts (max 1 batchSize)) 0

/-- A well-behaved embedding endpoint for stating success-path properties:
on any attempt it answers batch `i` with HTTP 200 and one `g`-vector per
input text of that batch, via the top-level `embeddings` field. -/
def pointwiseApi {α : Type} (g : String → List α) (batches : List (List String)) :
    Nat → Nat → HttpOutcome α :=
  fun i _ => .response 200 (some ⟨none, some ((batches.getD i []).map fun t => RawVec.vec (g t))⟩)

/-- The metrics `embed_texts` reports when every batch succeeds on its
first attempt: batch ids in order from `i`, the batch sizes, zero retries. -/
def successMetrics : Nat → List (List String) → List BatchMetrics
  | _, [] => []
  | i, b :: rest => ⟨i, b.length, 0⟩ :: successMetrics (i + 1) rest

/-! ### Local embedding client (`local_client.py`) -/

/-- `SentenceTransformerEmbeddingClient._convert_vectors`: every vector's
length must equal the model's embedding dimension, checked in order; the
first mismatch raises (`Except.error`). -/
def convertVectors {α : Type} (modelDim : Nat) :
    List (List α) → Except String (List (List α))
  | [] => .ok []
  | v :: vs =>
    if v.length = modelDim then (convertVectors modelDim vs).map (fun ws => v :: ws)
    else .error "Embedding dimension mismatch"

/-- Batch loop of the local `embed_texts`.  The SentenceTransformer
`encode` contract — one output vector per input sentence, in order — is
modelled by applying `encode` pointwise to the batch. -/
def localEmbedTextsGo {α : Type} (modelDim : Nat) (encode : String → List α) :
    List (List String) → Nat → Except String (List (List α) × List BatchMetrics)
  | [], _ => .ok ([], [])
  | b :: rest, i => do
    let converted ← convertVectors modelDim (b.map encode)
    let tail ← localEmbedTextsGo modelDim encode rest (i + 1)
    .ok (converted ++ tail.1, ⟨i, b.length, 0⟩ :: tail.2)

/-- `SentenceTransformerEmbeddingClient.embed_texts`. -/
def localEmbedTexts {α : Type} (modelDim batchSize : Nat) (encode : String → List α)
    (texts : List String) : Except String (List (List α) × List BatchMetrics) :=
  if texts.isEmpty then .ok ([], [])
  else localEmbedTextsGo modelDim encode (batched texts (max 1 batchSize)) 0

/-! ### Chunk normalization (`docling_chunker.py`)

Text is modelled as `List Char`; Python string indices become list
positions. -/

/-- The whitespace set of Python's `str.strip()` / `str.split()` (ASCII
part: space, tab, newline, carriage return, vertical tab, form feed). -/
def isPySpace (c : Char) : Bool :=
  c == ' ' || c == '\t' || c == '\n' || c == '\r' || c.toNat == 11 || c.toNat == 12

/-- Python `text.strip()`: drop leading and trailing whitespace. -/
def stripL (s : List Char) : List Char :=
  ((s.dropWhile isPySpace).reverse.dropWhile isPySpace).reverse

/-- Python `text.rfind(ch, start, stop)`: the largest index in
`[start, stop)` holding `ch`, else `-1`. -/
def rfindIn (s : List Char) (c : Char) (start stop : Nat) : Int :=
  (List.range' start (stop - start)).foldl
    (fun acc i => if s.get? i = some c then (i : Int) else acc) (-1)

/-- `ChunkMetadata` (the `extra` JSON dict is modelled as a key/value
list; its values never influence control flow). -/
structure ChunkMeta where
  pageNumber : Option Int
  chunkIndex : Nat
  sectionHeading : Option String
  structuralType : Option String
  extra : List (String × String) := []
deriving DecidableEq, Repr

/-- `ChunkData`. -/
structure ChunkData where
  text : List Char
  metadata : ChunkMeta
  characterCount : Nat
  tokenEstimate : Option Nat := none
deriving DecidableEq, Repr

/-- Word counter behind `_estimate_tokens` (`len(text.split())`): the
number of maximal non-whitespace runs. -/
def countWordsAux : List Char → Bool → Nat
  | [], _ => 0
  | c :: rest, inWord =>
    if isPySpace c then countWordsAux rest false
    else (if inWord then 0 else 1) + countWordsAux rest true

/-- `_estimate_tokens(text) = max(1, len(text.split()))`. -/
def estimateTokens (s : List Char) : Nat :=
  max 1 (countWordsAux s false)

/-- The `split_at` computation of one `_split_text` loop iteration:
`end = min(length, start + max_chars)`; if `end` is not the end of the
text, prefer the right-most newline or space in `[start, end)` when it
lies past the window's midpoint (`int(max_chars * 0.5)` is exact floor
halving for the integer magnitudes the config admits, modelled as
`maxC / 2`). -/
def splitAtPos (s : List Char) (maxC start : Nat) : Nat :=
  if min s.length (start + maxC) < s.length then
    if (start : Int) + (maxC / 2 : Nat)
        < max (rfindIn s '\n' start (min s.length (start + maxC)))
            (rfindIn s ' ' start (min s.length (start + maxC))) then
      (max (rfindIn s '\n' start (min s.length (start + maxC)))
          (rfindIn s ' ' start (min s.length (start + maxC)))).toNat
    else min s.length (start + maxC)
  else min s.length (start + maxC)

/-- The `while start < length` loop of `_split_text`, fuel-indexed;
fuel `≥ length` is always sufficient when `maxC ≥ 1`, since `start`
strictly increases.  Each stripped slice `text[start:split_at]` is kept
only when non-empty. -/
def splitTextAux (s : List Char) (maxC : Nat) : Nat → Nat → List (List Char)
  | 0, _ => []
  | fuel + 1, start =>
    if start < s.length then
      (if (stripL ((s.drop start).take (splitAtPos s maxC start - start))).isEmpty then []
       else [stripL ((s.drop start).take (splitAtPos s maxC start - start))]) ++
        splitTextAux s maxC fuel (splitAtPos s maxC start)
    else []

/-- `_split_text(text, max_chars)`. -/
def splitText (s : List Char) (maxC : Nat) : List (List Char) :=
  if s.length ≤ maxC then [s]
  else splitTextAux s maxC (s.length + 1) 0

/-- The separator `"\n\n"` used when merging buffered segments. -/
def chunkSep : List Char := ['\n', '\n']

/-- State of the `enforce_character_bounds` loop: the `normalized` output
accumulator and the pending buffer with its metadata.  In the Python code
`buffer_text` is the empty string exactly when the buffer is logically
absent, and `buffer_metadata` is set whenever `buffer_text` is non-empty,
so the pair is modelled as one `Option`. -/
structure NormState where
  normalized : List (List Char × ChunkMeta)
  buffer : Option (List Char × ChunkMeta)

/-- First half of the segment loop body: start a new buffer, extend the
buffer joined by a blank line when the combined length stays within
`max_chars`, or force-flush the buffer and restart it with the segment. -/
def stepBuffer (maxC : Nat) (meta : ChunkMeta) (st : NormState) (seg : List Char) :
    NormState :=
  match st.buffer with
  | none => ⟨st.normalized, some (seg, meta)⟩
  | some (b, bm) =>
    if (b ++ chunkSep ++ seg).length ≤ maxC then ⟨st.normalized, some (b ++ chunkSep ++ seg, bm)⟩
    else ⟨st.normalized ++ [(b, bm)], some (seg, meta)⟩

/-- Second half of the segment loop body: `if len(buffer_text) >= min_chars:
flush_buffer()` — the non-forced flush. -/
def flushAtMin (minC : Nat) (st : NormState) : NormState :=
  match st.buffer with
  | some (b, bm) => if minC ≤ b.length then ⟨st.normalized ++ [(b, bm)], none⟩ else st
  | none => st

/-- Body of the inner `for segment in _split_text(...)` loop: skip empty
segments, otherwise update the buffer and flush it if it reached
`min_chars`. -/
def processSegment (minC maxC : Nat) (meta : ChunkMeta) (st : NormState)
    (seg : List Char) : NormState :=
  if seg.isEmpty then st
  else flushAtMin minC (stepBuffer maxC meta st seg)

/-- Specification predicate: every normalized chunk and the pending
buffer are non-empty and within `max_chars`. -/
def BoundInv (maxC : Nat) (st : NormState) : Prop :=
  (∀ p ∈ st.normalized, 0 < p.1.length ∧ p.1.length ≤ maxC) ∧
  (∀ p, st.buffer = some p → 0 < p.1.length ∧ p.1.length ≤ maxC)

/-- Body of the outer `for chunk in chunks` loop. -/
def processChunk (minC maxC : Nat) (st : NormState) (chunk : ChunkData) : NormState :=
  (splitText (stripL chunk.text) maxC).foldl (processSegment minC maxC chunk.metadata) st

/-- Renumbering pass at the end of `enforce_character_bounds`: emission
order indices, recomputed character counts and token estimates. -/
def renumberAux : Nat → List (List Char × ChunkMeta) → List ChunkData
  | _, [] => []
  | i, (t, m) :: rest =>
    ⟨t, ⟨m.pageNumber, i, m.sectionHeading, m.structuralType, m.extra⟩,
      t.length, some (estimateTokens t)⟩ :: renumberAux (i + 1) rest

def renumberChunks (l : List (List Char × ChunkMeta)) : List ChunkData :=
  renumberAux 0 l

/-- `enforce_character_bounds(chunks, min_chars, max_chars)`: validate the
bounds (raising a `ValueError` otherwise), run the merge/split loop, force
the final flush, and renumber. -/
def enforceCharacterBounds (chunks : List ChunkData) (minC maxC : Nat) :
    Except String (List ChunkData) :=
  if minC = 0 || maxC = 0 then .error "Chunk bounds must be positive."
  else if maxC ≤ minC then .error "min_chars must be smaller than max_chars."
  else
    let final := chunks.foldl (processChunk minC maxC) ⟨[], none⟩
    let flushed :=
      match final.buffer with
      | some (b, bm) => final.normalized ++ [(b, bm)]
      | none => final.normalized
    .ok (renumberChunks flushed)

/-! ### Persistence store (`supabase_store.py`)

The model follows the repo's own deterministic `InMemoryStore`; for
`replace_chunks_for_source` the SQL store wraps delete+insert in one
transaction, so a failing write leaves the chunk rows unchanged, which the
model reflects by injecting failure *before* any mutation. -/

/-- Discovered document (the fields of `DocumentInput` the pipeline's
control flow reads: location, display name and content fingerprint). -/
structure Doc where
  location : String
  displayName : String
  contentHash : String
deriving DecidableEq, Repr

/-- `SourceIngestionStatus` (`partially_ingested` is `partlyIngested`). -/
inductive SourceStatus where
  | pending
  | ingested
  | partlyIngested
  | failed
deriving DecidableEq, Repr

/-- A row of the `sources` table (`SourceRow`). -/
structure SourceRowM where
  id : Nat
  location : String
  documentName : String
  contentHash : String
  status : SourceStatus
  errorMessage : Option String
deriving DecidableEq, Repr

/-- A persisted chunk row (`ChunkRecord`, embedding scalars abstract). -/
structure ChunkRecordM (α : Type) where
  sourceLocation : String
  chunkIndex : Nat
  text : List Char
  embedding : List α
deriving DecidableEq, Repr

/-- Association-list lookup (the model of a Python dict read). -/
def getAssoc {κ ν : Type} [DecidableEq κ] : List (κ × ν) → κ → Option ν
  | [], _ => none
  | p :: rest, k => if p.1 = k then some p.2 else getAssoc rest k

/-- Association-list upsert keyed on the first component (the model of a
Python dict write). -/
def setAssoc {κ ν : Type} [DecidableEq κ] : List (κ × ν) → κ → ν → List (κ × ν)
  | [], k, v => [(k, v)]
  | p :: rest, k, v => if p.1 = k then (k, v) :: rest else p :: setAssoc rest k v

/-- Store state: the `sources` table keyed by location, the chunk rows
keyed by source id, and a fresh-id counter (standing in for `uuid4`). -/
structure Store (α : Type) where
  sources : List (String × SourceRowM)
  chunks : List (Nat × List (ChunkRecordM α))
  nextId : Nat
deriving DecidableEq, Repr

/-- `get_source_by_location`. -/
def getSourceByLocation {α : Type} (s : Store α) (loc : String) : Option SourceRowM :=
  getAssoc s.sources loc

/-- `upsert_source`: insert or fully replace the row at the document's
location, keeping an existing row's id, with a fresh error message. -/
def upsertSource {α : Type} (s : Store α) (doc : Doc) (status : SourceStatus) :
    SourceRowM × Store α :=
  match getSourceByLocation s doc.location with
  | some existing =>
    let row : SourceRowM :=
      ⟨existing.id, doc.location, doc.displayName, doc.contentHash, status, none⟩
    (row, { s with sources := setAssoc s.sources doc.location row })
  | none =>
    let row : SourceRowM :=
      ⟨s.nextId, doc.location, doc.displayName, doc.contentHash, status, none⟩
    (row, { s with sources := setAssoc s.sources doc.location row, nextId := s.nextId + 1 })

/-- `mark_source_status`: update status and error message of an existing
row; a missing row is left untouched (the store returns `None`). -/
def markSourceStatus {α : Type} (s : Store α) (loc : String) (status : SourceStatus)
    (err : Option String) : Store α :=
  match getSourceByLocation s loc with
  | none => s
  | some row =>
    { s with sources :=
        setAssoc s.sources loc ⟨row.id, row.location, row.documentName, row.contentHash, status, err⟩ }

/-- `mark_source_failed`. -/
def markSourceFailed {α : Type} (s : Store α) (loc msg : String) : Store α :=
  markSourceStatus s loc .failed (some msg)

/-- `replace_chunks_for_source` (successful path). -/
def replaceChunksForSource {α : Type} (s : Store α) (sourceId : Nat)
    (records : List (ChunkRecordM α)) : Store α :=
  { s with chunks := setAssoc s.chunks sourceId records }

/-- `SupabaseStore.has_content_changed`. -/
def hasContentChanged (doc : Doc) (existing : Option SourceRowM) : Bool :=
  match existing with
  | none => true
  | some row => decide (doc.contentHash ≠ row.contentHash)

/-! ### Ingestion pipeline (`pipeline.py`) -/

/-- The injected `PipelineServices` dependencies whose success or failure
drives the pipeline's control flow: the chunker, the embedding client's
`embed_document_chunks`, and whether `replace_chunks_for_source` raises
(`some msg`) or commits (`none`). -/
structure Services (α : Type) where
  chunker : Doc → Except String (List ChunkData)
  embedder : List ChunkData → Except String (List (List α))
  persistErr : Doc → Option String

/-- `DocumentIngestionResult` (`duration_ms` not modelled). -/
structure DocResult where
  location : String
  status : SourceStatus
  chunksIngested : Nat
  error : Option String
deriving DecidableEq, Repr

/-- `_build_chunk_records` (the caller has already checked the lengths
match, as the Python function raises otherwise). -/
def buildChunkRecords {α : Type} (doc : Doc) (chunks : List ChunkData)
    (embeddings : List (List α)) : List (ChunkRecordM α) :=
  (chunks.zip embeddings).map fun p =>
    ⟨doc.location, p.1.metadata.chunkIndex, p.1.text, p.2⟩

/-- `ingest_single_document`.  The `ExitStack` callback that fires on every
exit marks the source failed exactly when the final status is FAILED and an
error message is set; the PARTIAL branch marks the source itself.  On the
failure paths `chunk_count` is still `0` because the Python variable is
assigned only after `_build_chunk_records` succeeds. -/
def ingestSingleDocument {α : Type} (svc : Services α) (doc : Doc) (store : Store α) :
    DocResult × Store α :=
  let up := upsertSource store doc .pending
  let s1 := up.2
  match svc.chunker doc with
  | .error msg => (⟨doc.location, .failed, 0, some msg⟩, markSourceFailed s1 doc.location msg)
  | .ok chunks =>
    if chunks.isEmpty then
      let msg := "Document produced no chunks."
      (⟨doc.location, .failed, 0, some msg⟩, markSourceFailed s1 doc.location msg)
    else
      match svc.embedder chunks with
      | .error msg =>
        (⟨doc.location, .failed, 0, some msg⟩, markSourceFailed s1 doc.location msg)
      | .ok embeddings =>
        if chunks.length ≠ embeddings.length then
          let msg := "Chunk and embedding counts do not match."
          (⟨doc.location, .failed, 0, some msg⟩, markSourceFailed s1 doc.location msg)
        else
          let records := buildChunkRecords doc chunks embeddings
          match svc.persistErr doc with
          | some msg =>
            (⟨doc.location, .partlyIngested, records.length, some msg⟩,
              markSourceStatus s1 doc.location .partlyIngested (some msg))
          | none =>
            let s2 := replaceChunksForSource s1 up.1.id records
            (⟨doc.location, .ingested, records.length, none⟩,
              markSourceStatus s2 doc.location .ingested none)

/-- The synthetic result appended for a skipped document. -/
def skipResult (loc : String) : DocResult :=
  ⟨loc, .ingested, 0, some "Skipped (content hash unchanged)."⟩

/-- The skip condition of `run_ingestion_job`'s loop. -/
def shouldSkip {α : Type} (force : Bool) (store : Store α) (doc : Doc) : Bool :=
  !force && (getSourceByLocation store doc.location).isSome &&
    !(hasContentChanged doc (getSourceByLocation store doc.location))

/-- Loop state of `run_ingestion_job`: the `documents` results list, the
`stats` counters, the `failure_count`, and the store.  `processed` is ghost
instrumentation recording the documents for which `ingest_single_document`
(and hence chunking / embedding / chunk persistence) actually ran. -/
structure RunState (α : Type) where
  documents : List DocResult
  documentsIngested : Nat
  documentsFailed : Nat
  chunksCreated : Nat
  failureCount : Nat
  store : Store α
  processed : List Doc

/-- The `if max_failures is not None and failure_count >= max_failures`
break test of `run_ingestion_job`. -/
def hitMaxFailures (maxFailures : Option Nat) (failureCount : Nat) : Bool :=
  match maxFailures with
  | some m => m ≤ failureCount
  | none => false

/-- The `for document in discovered_docs` loop of `run_ingestion_job`:
skip unchanged documents, otherwise ingest; on success count it as
ingested, otherwise bump the failure counters and, when `max_failures` is
reached, `break` — before the `stats.chunks_created` accumulation line.
The Python loop binds `result = ingest_single_document(...)` once; the
model repeats the pure call `ingestSingleDocument svc d st.store`, which
denotes the same value. -/
def runLoop {α : Type} (svc : Services α) (force : Bool) (maxFailures : Option Nat) :
    List Doc → RunState α → RunState α
  | [], st => st
  | d :: rest, st =>
    if shouldSkip force st.store d then
      runLoop svc force maxFailures rest
        { st with documents := st.documents ++ [skipResult d.location] }
    else
      if (ingestSingleDocument svc d st.store).1.status = .ingested then
        runLoop svc force maxFailures rest
          ⟨st.documents ++ [(ingestSingleDocument svc d st.store).1],
            st.documentsIngested + 1, st.documentsFailed,
            st.chunksCreated + (ingestSingleDocument svc d st.store).1.chunksIngested,
            st.failureCount, (ingestSingleDocument svc d st.store).2, st.processed ++ [d]⟩
      else
        if hitMaxFailures maxFailures (st.failureCount + 1) then
          ⟨st.documents ++ [(ingestSingleDocument svc d st.store).1],
            st.documentsIngested, st.documentsFailed + 1, st.chunksCreated,
            st.failureCount + 1, (ingestSingleDocument svc d st.store).2,
            st.processed ++ [d]⟩
        else
          runLoop svc force maxFailures rest
            ⟨st.documents ++ [(ingestSingleDocument svc d st.store).1],
              st.documentsIngested, st.documentsFailed + 1,
              st.chunksCreated + (ingestSingleDocument svc d st.store).1.chunksIngested,
              st.failureCount + 1, (ingestSingleDocument svc d st.store).2,
              st.processed ++ [d]⟩

/-- `IngestionResult` together with the final store and the ghost
`processed` list. -/
structure IngestionResultM (α : Type) where
  documents : List DocResult
  documentsDiscovered : Nat
  documentsIngested : Nat
  documentsFailed : Nat
  chunksCreated : Nat
  finalStore : Store α
  processed : List Doc

/-- `run_ingestion_job` over an already-discovered, deduplicated document
list (`_discover_unique_documents` and the request/config merge are
abstracted into the `docs` and `force` arguments). -/
def runIngestionJob {α : Type} (svc : Services α) (force : Bool)
    (maxFailures : Option Nat) (docs : List Doc) (store : Store α) :
    IngestionResultM α :=
  let st := runLoop svc force maxFailures docs ⟨[], 0, 0, 0, 0, store, []⟩
  ⟨st.documents, docs.length, st.documentsIngested, st.documentsFailed,
    st.chunksCreated, st.store, st.processed⟩

/-! ### Ingestion skill service (`tools/ingestion_skill/service.py`) -/

/-- The exception classes `run_ingestion_skill` distinguishes in its
`except` clauses. -/
inductive JobError where
  | fileNotFound (msg : String)
  | other (msg : String)
deriving DecidableEq, Repr

/-- `IngestionSkillResponse` (summary, counters, warnings). -/
structure SkillResponse where
  summaryText : String
  ingestedCount : Nat
  failedCount : Nat
  warnings : List String
deriving DecidableEq, Repr

/-- `_format_summary` (concise format). -/
def formatSummary (pipelineId : String) (discovered ingested failed : Nat) : String :=
  "Pipeline " ++ pipelineId ++ " processed " ++ toString discovered ++
    " documents; " ++ toString ingested ++ " ingested, " ++ toString failed ++ " failed."

/-- `run_ingestion_skill`.  `create_pipeline_runtime(cfg)` runs *before*
the `try` block, so a failure there (modelled by `runtimeCreation =
.error`) propagates to the caller; failures inside the `try` — the
ingestion job raising `FileNotFoundError` (e.g. `require_sources` on a
missing directory) or any other exception — are converted into a
structured response carrying a warning. -/
def runIngestionSkill {α : Type} (pipelineId : String)
    (runtimeCreation : Except String Unit)
    (job : Except JobError (IngestionResultM α)) : Except String SkillResponse :=
  match runtimeCreation with
  | .error e => .error e
  | .ok _ =>
    match job with
    | .ok result =>
      .ok ⟨formatSummary pipelineId result.documentsDiscovered
             result.documentsIngested result.documentsFailed,
           result.documentsIngested, result.documentsFailed, []⟩
    | .error (.fileNotFound m) =>
      .ok ⟨"Ingestion aborted: " ++ m, 0, 0, [m]⟩
    | .error (.other m) =>
      .ok ⟨"Ingestion failed: " ++ m, 0, 0, ["Ingestion failed: " ++ m]⟩

/-! ### Concrete endpoints used in witnesses and counterexamples -/

/-- An endpoint that always answers with a single vector of dimension 1
(the wrong dimensionality when 2 is expected) — a pure format error. -/
def C2api : Nat → HttpOutcome Int := fun _ =>
  .response 200 (some ⟨none, some [RawVec.vec [0]]⟩)

/-- A well-formed endpoint for 3 texts in batches of 2: batch 0 gets two
2-dimensional vectors, batch 1 gets one. -/
def C5api : Nat → Nat → HttpOutcome Int := fun i _ =>
  if i = 0 then .response 200 (some ⟨none, some [RawVec.vec [0, 0], RawVec.vec [1, 1]]⟩)
  else .response 200 (some ⟨none, some [RawVec.vec [2, 2]]⟩)

/-- Metadata used by the C1 example chunks. -/
def C1okMeta : ChunkMeta := ⟨none, 0, none, none, []⟩

/-- The C1 counterexample input: an 8-character chunk followed by a
3-character chunk, under bounds `min_chars = 10`, `max_chars = 12`. -/
def C1exChunks : List ChunkData :=
  [⟨"abcdefgh".toList, C1okMeta, 8, none⟩, ⟨"xyz".toList, C1okMeta, 3, none⟩]

/-- Chunk metadata for the pipeline example chunks. -/
def exMeta : ChunkMeta := ⟨none, 0, none, none, []⟩

/-- Two example chunks for pipeline scenarios. -/
def exChunkA : ChunkData := ⟨"alpha".toList, exMeta, 5, none⟩

def exChunkB : ChunkData := ⟨"beta".toList, exMeta, 4, none⟩

/-- Example documents. -/
def exDoc : Doc := ⟨"f.txt", "f.txt", "h1"⟩

def exDoc2 : Doc := ⟨"g.txt", "g.txt", "h2"⟩

/-- An empty store. -/
def emptyStore : Store Int := ⟨[], [], 0⟩

/-- Services whose chunker and embedder succeed with two chunks but whose
chunk persistence always raises. -/
def C3svc : Services Int :=
  ⟨fun _ => .ok [exChunkA, exChunkB],
    fun cs => .ok (cs.map fun _ => [0, 0]),
    fun _ => some "db down"⟩

/-- Services whose chunker always fails. -/
def failSvc : Services Int :=
  ⟨fun _ => .error "boom", fun _ => .ok [], fun _ => none⟩

/-- Services that never get called in skip scenarios. -/
def trivSvc : Services Int :=
  ⟨fun _ => .ok [], fun _ => .ok [], fun _ => none⟩

/-- A store already holding a source row for `exDoc` with the same content
fingerprint `"h1"`. -/
def seededStore : Store Int :=
  ⟨[("f.txt", ⟨0, "f.txt", "f.txt", "h1", .ingested, none⟩)], [], 1⟩

/-- The empty ingestion outcome used by the skill model examples. -/
def C7outcome : IngestionResultM Int := ⟨[], 0, 0, 0, 0, ⟨[], [], 0⟩, []⟩

/-! ### Helper lemmas: batching -/

theorem batchedAux_nil {α : Type} (b fuel : Nat) : batchedAux (α := α) b fuel [] = [] := by
  cases fuel <;> rfl

theorem batchedAux_join {α : Type} (b : Nat) (hb : 1 ≤ b) :
    ∀ (fuel : Nat) (l : List α), l.length ≤ fuel → (batchedAux b fuel l).flatten = l := by
  intro fuel
  induction fuel with
  | zero =>
    intro l hl
    have hnil : l = [] := List.length_eq_zero.mp (Nat.le_zero.mp hl)
    subst hnil; rfl
  | succ n ih =>
    intro l hl
    cases l with
    | nil => rfl
    | cons x xs =>
      have hstep : batchedAux b (n + 1) (x :: xs)
          = (x :: xs).take b :: batchedAux b n ((x :: xs).drop b) := rfl
      rw [hstep, List.flatten_cons, ih _ ?hlen, List.take_append_drop]
      case hlen =>
        rw [List.length_drop]
        simp only [List.length_cons] at hl ⊢
        omega

theorem batched_join {α : Type} (l : List α) (b : Nat) (hb : 1 ≤ b) :
    (batched l b).flatten = l :=
  batchedAux_join b hb l.length l (Nat.le_refl _)

theorem ceilDiv_step (n b : Nat) (hn : 1 ≤ n) (hb : 1 ≤ b) :
    (n - b + b - 1) / b + 1 = (n + b - 1) / b := by
  have hrw : n + b - 1 = (n - 1) + b := by omega
  rw [hrw, Nat.add_div_right _ (by omega)]
  rcases le_or_lt n b with h | h
  · have h1 : n - b + b - 1 = b - 1 := by omega
    have h2 : (n - 1) / b = 0 := Nat.div_eq_of_lt (by omega)
    have h3 : (b - 1) / b = 0 := Nat.div_eq_of_lt (by omega)
    rw [h1, h2, h3]
  · have h1 : n - b + b - 1 = n - 1 := by omega
    rw [h1]

theorem batchedAux_length {α : Type} (b : Nat) (hb : 1 ≤ b) :
    ∀ (fuel : Nat) (l : List α), l.length ≤ fuel →
      (batchedAux b fuel l).length = (l.length + b - 1) / b := by
  intro fuel
  induction fuel with
  | zero =>
    intro l hl
    have hnil : l = [] := List.length_eq_zero.mp (Nat.le_zero.mp hl)
    subst hnil
    simp [batchedAux_nil, Nat.div_eq_of_lt (show b - 1 < b by omega)]
  | succ n ih =>
    intro l hl
    cases l with
    | nil => simp [batchedAux_nil, Nat.div_eq_of_lt (show b - 1 < b by omega)]
    | cons x xs =>
      have hstep : batchedAux b (n + 1) (x :: xs)
          = (x :: xs).take b :: batchedAux b n ((x :: xs).drop b) := rfl
      have hlen : ((x :: xs).drop b).length ≤ n := by
        rw [List.length_drop]; simp only [List.length_cons] at hl ⊢; omega
      rw [hstep, List.length_cons, ih _ hlen, List.length_drop]
      exact ceilDiv_step (x :: xs).length b (by simp) hb

theorem batched_length {α : Type} (l : List α) (b : Nat) (hb : 1 ≤ b) :
    (batched l b).length = (l.length + b - 1) / b :=
  batchedAux_length b hb l.length l (Nat.le_refl _)

theorem batchedAux_mem {α : Type} (b : Nat) (hb : 1 ≤ b) :
    ∀ (fuel : Nat) (l : List α) (batch : List α), batch ∈ batchedAux b fuel l →
      0 < batch.length ∧ batch.length ≤ b := by
  intro fuel
  induction fuel with
  | zero => intro l batch h; cases l <;> simp [batchedAux] at h
  | succ n ih =>
    intro l batch h
    cases l with
    | nil => simp [batchedAux] at h
    | cons x xs =>
      have hstep : batchedAux b (n + 1) (x :: xs)
          = (x :: xs).take b :: batchedAux b n ((x :: xs).drop b) := rfl
      rw [hstep, List.mem_cons] at h
      rcases h with h | h
      · subst h
        constructor
        · rw [List.length_take]; simp only [List.length_cons]; omega
        · rw [List.length_take]; omega
      · exact ih _ _ h

theorem batchedAux_dropLast {α : Type} (b : Nat) :
    ∀ (fuel : Nat) (l : List α) (batch : List α),
      batch ∈ (batchedAux b fuel l).dropLast → batch.length = b := by
  intro fuel
  induction fuel with
  | zero => intro l batch h; cases l <;> simp [batchedAux] at h
  | succ n ih =>
    intro l batch h
    cases l with
    | nil => simp [batchedAux] at h
    | cons x xs =>
      have hstep : batchedAux b (n + 1) (x :: xs)
          = (x :: xs).take b :: batchedAux b n ((x :: xs).drop b) := rfl
      rw [hstep] at h
      rcases hrest : batchedAux b n ((x :: xs).drop b) with _ | ⟨r, rs⟩
      · rw [hrest] at h; simp at h
      · rw [hrest, List.dropLast_cons_of_ne_nil (by simp), List.mem_cons] at h
        rcases h with h | h
        · subst h
          have hne : (x :: xs).drop b ≠ [] := by
            intro hcon
            rw [hcon, batchedAux_nil] at hrest
            exact List.noConfusion hrest
          have : b < (x :: xs).length := by
            by_contra hle
            exact hne (List.drop_eq_nil_of_le (by omega))
          rw [List.length_take]
          omega
        · exact ih _ _ (by rw [hrest]; exact h)

/-! ### Helper lemmas: `Except` bind reduction -/

theorem bindOk {eps beta gamma : Type} (x : beta) (f : beta → Except eps gamma) :
    (Except.ok x : Except eps beta) >>= f = f x := rfl

theorem bindErr {eps beta gamma : Type} (e : eps) (f : beta → Except eps gamma) :
    (Except.error e : Except eps beta) >>= f = .error e := rfl

/-! ### Helper lemmas: remote client success path -/

theorem checkVecs_map_vec {α : Type} (dims bid att : Nat) (g : String → List α)
    (hdims : ∀ t, (g t).length = dims) :
    ∀ (b : List String),
      checkVecs dims bid att (b.map fun t => RawVec.vec (g t)) = .ok (b.map g) := by
  intro b
  induction b with
  | nil => rfl
  | cons t ts ih =>
    show (do
      let x ← checkVec dims bid att (RawVec.vec (g t))
      let xs ← checkVecs dims bid att (ts.map fun s => RawVec.vec (g s))
      Except.ok (x :: xs)) = _
    rw [ih]
    simp only [checkVec, if_pos (hdims t), bindOk]
    rfl

theorem parseResponse_embeddings_ok {α : Type} (dims bid att : Nat) (g : String → List α)
    (hdims : ∀ t, (g t).length = dims) (b : List String) :
    parseResponse dims b.length bid att ⟨none, some (b.map fun t => RawVec.vec (g t))⟩
      = .ok (b.map g) := by
  show (do
    let vectorsRaw : List (RawVec α) ← Except.ok (b.map fun t => RawVec.vec (g t))
    let vectors ← checkVecs dims bid att vectorsRaw
    if vectors.length = b.length then Except.ok vectors
    else Except.error ⟨.sizeMismatch, none, bid, att⟩) = _
  rw [bindOk, checkVecs_map_vec dims bid att g hdims b, bindOk,
    if_pos (List.length_map b g)]

theorem invokeApi_pointwise_ok {α : Type} (dims bid att : Nat) (g : String → List α)
    (hdims : ∀ t, (g t).length = dims) (b : List String) :
    invokeApi dims bid att b.length
        (.response 200 (some ⟨none, some (b.map fun t => RawVec.vec (g t))⟩))
      = .ok (b.map g) := by
  simp only [invokeApi]
  rw [if_neg (by omega)]
  exact parseResponse_embeddings_ok dims bid att g hdims b

theorem embedBatchLoop_first_ok {α : Type} (invoke : Nat → Except EmbError (List (List α)))
    (v : List (List α)) (hv : invoke 0 = .ok v) :
    ∀ rem, embedBatchLoop invoke 0 rem = (.ok (v, 0), 1) := by
  intro rem; cases rem <;> simp [embedBatchLoop, hv]

theorem embedBatch_first_ok {α : Type} (rc dims bid : Nat) (b : List String)
    (api : Nat → HttpOutcome α) (v : List (List α))
    (hapi : invokeApi dims bid 0 b.length (api 0) = .ok v) :
    embedBatch rc dims bid b api = (.ok (v, ⟨bid, b.length, 0⟩), 1) := by
  unfold embedBatch
  rw [embedBatchLoop_first_ok _ v hapi rc]
  rfl

theorem embedTextsGo_allOk {α : Type} (rc dims : Nat) (g : String → List α)
    (hdims : ∀ t, (g t).length = dims) :
    ∀ (batches : List (List String)) (i : Nat) (api : Nat → Nat → HttpOutcome α),
      (∀ j b, batches[j]? = some b →
        api (i + j) 0 = .response 200 (some ⟨none, some (b.map fun t => RawVec.vec (g t))⟩)) →
      embedTextsGo rc dims api batches i =
        (.ok ((batches.map fun b => b.map g).flatten, successMetrics i batches),
          batches.length) := by
  intro batches
  induction batches with
  | nil => intro i api _; rfl
  | cons b rest ih =>
    intro i api hapi
    have h0 : api i 0 = .response 200 (some ⟨none, some (b.map fun t => RawVec.vec (g t))⟩) := by
      have := hapi 0 b (by simp)
      simpa using this
    have hbatch : embedBatch rc dims i b (api i) = (.ok (b.map g, ⟨i, b.length, 0⟩), 1) := by
      apply embedBatch_first_ok
      rw [h0]
      exact invokeApi_pointwise_ok dims i 0 g hdims b
    have hrest : embedTextsGo rc dims api rest (i + 1) =
        (.ok ((rest.map fun c => c.map g).flatten, successMetrics (i + 1) rest),
          rest.length) := by
      apply ih
      intro j c hc
      have := hapi (j + 1) c (by simpa using hc)
      simpa [Nat.add_assoc, Nat.add_comm 1 j] using this
    unfold embedTextsGo
    rw [hbatch, hrest]
    simp [successMetrics, Nat.add_comm]

theorem embedTexts_pointwise {α : Type} (rc dims bs : Nat) (g : String → List α)
    (hdims : ∀ t, (g t).length = dims) (texts : List String) :
    embedTexts rc dims bs (pointwiseApi g (batched texts (max 1 bs))) texts =
      (.ok (texts.map g, successMetrics 0 (batched texts (max 1 bs))),
        (batched texts (max 1 bs)).length) := by
  rcases texts with _ | ⟨t, ts⟩
  · rfl
  · show embedTextsGo rc dims _ (batched (t :: ts) (max 1 bs)) 0 = _
    rw [embedTextsGo_allOk rc dims g hdims (batched (t :: ts) (max 1 bs)) 0 _ ?hapi]
    · have hflat : ((batched (t :: ts) (max 1 bs)).map fun b => b.map g).flatten
          = (t :: ts).map g := by
        rw [← List.map_flatten, batched_join _ _ (Nat.le_max_left 1 bs)]
      rw [hflat]
    case hapi =>
      intro j b hb
      simp only [pointwiseApi, Nat.zero_add]
      have hgd : (batched (t :: ts) (max 1 bs)).getD j [] = b := by
        simp [List.getD, hb]
      rw [hgd]

/-! ### Helper lemmas: remote client count and error fields -/

theorem checkVec_error_fields {α : Type} (dims bid att : Nat) (v : RawVec α) (e : EmbError)
    (h : checkVec dims bid att v = .error e) : e.batchId = bid ∧ e.retryCount = att := by
  cases v with
  | notSeq => cases h; exact ⟨rfl, rfl⟩
  | vec l =>
    simp only [checkVec] at h
    split at h
    · cases h
    · cases h; exact ⟨rfl, rfl⟩

theorem checkVecs_error_fields {α : Type} (dims bid att : Nat) :
    ∀ (vs : List (RawVec α)) (e : EmbError),
      checkVecs dims bid att vs = .error e → e.batchId = bid ∧ e.retryCount = att := by
  intro vs
  induction vs with
  | nil => intro e h; cases h
  | cons v rest ih =>
    intro e h
    have hshape : checkVecs dims bid att (v :: rest) = (do
        let x ← checkVec dims bid att v
        let xs ← checkVecs dims bid att rest
        Except.ok (x :: xs)) := rfl
    rw [hshape] at h
    cases hv : checkVec dims bid att v with
    | error e1 =>
      rw [hv, bindErr] at h
      cases h
      exact checkVec_error_fields dims bid att v e hv
    | ok x =>
      rw [hv, bindOk] at h
      cases hr : checkVecs dims bid att rest with
      | error e2 =>
        rw [hr, bindErr] at h
        cases h
        exact ih e hr
      | ok xs => rw [hr, bindOk] at h; cases h

theorem parseResponse_error_fields {α : Type} (dims cnt bid att : Nat) (p : Payload α)
    (e : EmbError) (h : parseResponse dims cnt bid att p = .error e) :
    e.batchId = bid ∧ e.retryCount = att := by
  rcases p with ⟨df, ef⟩
  cases df with
  | some d =>
    have hshape : parseResponse dims cnt bid att ⟨some d, ef⟩ = (do
        let vectors ← checkVecs dims bid att ((sortByIndex d).map Prod.snd)
        if vectors.length = cnt then Except.ok vectors
        else Except.error ⟨.sizeMismatch, none, bid, att⟩) := rfl
    rw [hshape] at h
    cases hc : checkVecs dims bid att ((sortByIndex d).map Prod.snd) with
    | error e1 =>
      rw [hc, bindErr] at h; cases h
      exact checkVecs_error_fields dims bid att _ e hc
    | ok vs =>
      rw [hc, bindOk] at h
      split at h
      · cases h
      · cases h; exact ⟨rfl, rfl⟩
  | none =>
    cases ef with
    | some vraw =>
      have hshape : parseResponse dims cnt bid att ⟨none, some vraw⟩ = (do
          let vectors ← checkVecs dims bid att vraw
          if vectors.length = cnt then Except.ok vectors
          else Except.error ⟨.sizeMismatch, none, bid, att⟩) := rfl
      rw [hshape] at h
      cases hc : checkVecs dims bid att vraw with
      | error e1 =>
        rw [hc, bindErr] at h; cases h
        exact checkVecs_error_fields dims bid att _ e hc
      | ok vs =>
        rw [hc, bindOk] at h
        split at h
        · cases h
        · cases h; exact ⟨rfl, rfl⟩
    | none => cases h; exact ⟨rfl, rfl⟩

theorem invokeApi_error_fields {α : Type} (dims bid att cnt : Nat) (outcome : HttpOutcome α)
    (e : EmbError) (h : invokeApi dims bid att cnt outcome = .error e) :
    e.batchId = bid ∧ e.retryCount = att := by
  cases outcome with
  | requestError => cases h; exact ⟨rfl, rfl⟩
  | response status body =>
    simp only [invokeApi] at h
    split at h
    · cases h; exact ⟨rfl, rfl⟩
    · cases body with
      | none => cases h; exact ⟨rfl, rfl⟩
      | some payload => exact parseResponse_error_fields dims cnt bid att payload e h

theorem parseResponse_ok_length {α : Type} (dims cnt bid att : Nat) (p : Payload α)
    (v : List (List α)) (h : parseResponse dims cnt bid att p = .ok v) : v.length = cnt := by
  rcases p with ⟨df, ef⟩
  cases df with
  | some d =>
    have hshape : parseResponse dims cnt bid att ⟨some d, ef⟩ = (do
        let vectors ← checkVecs dims bid att ((sortByIndex d).map Prod.snd)
        if vectors.length = cnt then Except.ok vectors
        else Except.error ⟨.sizeMismatch, none, bid, att⟩) := rfl
    rw [hshape] at h
    cases hc : checkVecs dims bid att ((sortByIndex d).map Prod.snd) with
    | error e1 => rw [hc, bindErr] at h; cases h
    | ok vs =>
      rw [hc, bindOk] at h
      split at h
      · cases h; assumption
      · cases h
  | none =>
    cases ef with
    | some vraw =>
      have hshape : parseResponse dims cnt bid att ⟨none, some vraw⟩ = (do
          let vectors ← checkVecs dims bid att vraw
          if vectors.length = cnt then Except.ok vectors
          else Except.error ⟨.sizeMismatch, none, bid, att⟩) := rfl
      rw [hshape] at h
      cases hc : checkVecs dims bid att vraw with
      | error e1 => rw [hc, bindErr] at h; cases h
      | ok vs =>
        rw [hc, bindOk] at h
        split at h
        · cases h; assumption
        · cases h
    | none => cases h

theorem invokeApi_ok_length {α : Type} (dims bid att cnt : Nat) (outcome : HttpOutcome α)
    (v : List (List α)) (h : invokeApi dims bid att cnt outcome = .ok v) : v.length = cnt := by
  cases outcome with
  | requestError => cases h
  | response status body =>
    simp only [invokeApi] at h
    split at h
    · cases h
    · cases body with
      | none => cases h
      | some payload => exact parseResponse_ok_length dims cnt bid att payload v h

theorem embedBatchLoop_ok_invoke {α : Type} (invoke : Nat → Except EmbError (List (List α))) :
    ∀ (rem att : Nat) (v : List (List α)) (n : Nat),
      (embedBatchLoop invoke att rem).1 = .ok (v, n) → invoke n = .ok v := by
  intro rem
  induction rem with
  | zero =>
    intro att v n h
    unfold embedBatchLoop at h
    cases hi : invoke att with
    | ok w => rw [hi] at h; cases h; exact hi
    | error e => rw [hi] at h; cases h
  | succ r ih =>
    intro att v n h
    unfold embedBatchLoop at h
    cases hi : invoke att with
    | ok w => rw [hi] at h; cases h; exact hi
    | error e =>
      rw [hi] at h
      exact ih (att + 1) v n h

theorem embedBatch_ok_length {α : Type} (rc dims bid : Nat) (texts : List String)
    (api : Nat → HttpOutcome α) (v : List (List α)) (m : BatchMetrics) (c : Nat)
    (h : embedBatch rc dims bid texts api = (.ok (v, m), c)) : v.length = texts.length := by
  unfold embedBatch at h
  have h1 := congrArg Prod.fst h
  simp only at h1
  cases hloop : (embedBatchLoop
      (fun attempt => invokeApi dims bid attempt texts.length (api attempt)) 0 rc).1 with
  | error e => rw [hloop] at h1; cases h1
  | ok p =>
    rw [hloop] at h1
    have hv : p.1 = v := by
      cases h1; rfl
    have hinv := embedBatchLoop_ok_invoke _ rc 0 p.1 p.2 (by rw [hloop])
    rw [hv] at hinv
    exact invokeApi_ok_length dims bid p.2 texts.length _ v hinv

theorem embedTextsGo_ok_length {α : Type} (rc dims : Nat) (api : Nat → Nat → HttpOutcome α) :
    ∀ (batches : List (List String)) (i : Nat) (v : List (List α))
      (ms : List BatchMetrics) (c : Nat),
      embedTextsGo rc dims api batches i = (.ok (v, ms), c) →
      v.length = (batches.map List.length).sum := by
  intro batches
  induction batches with
  | nil =>
    intro i v ms c h
    cases h
    rfl
  | cons b rest ih =>
    intro i v ms c h
    unfold embedTextsGo at h
    rcases hb : embedBatch rc dims i b (api i) with ⟨r1, c1⟩
    rw [hb] at h
    cases r1 with
    | error e => simp only at h; cases h
    | ok p =>
      rcases p with ⟨v1, m1⟩
      simp only at h
      rcases hr : embedTextsGo rc dims api rest (i + 1) with ⟨r2, c2⟩
      rw [hr] at h
      cases r2 with
      | error e => simp only at h; cases h
      | ok q =>
        rcases q with ⟨vs, ms2⟩
        simp only at h
        have hv : v1 ++ vs = v := by cases h; rfl
        have hlen1 : v1.length = b.length :=
          embedBatch_ok_length rc dims i b (api i) v1 m1 c1 hb
        have hlen2 : vs.length = (rest.map List.length).sum :=
          ih (i + 1) vs ms2 c2 hr
        rw [← hv]
        simp [hlen1, hlen2]

theorem embedTexts_ok_length {α : Type} (rc dims bs : Nat) (api : Nat → Nat → HttpOutcome α)
    (texts : List String) (v : List (List α)) (ms : List BatchMetrics) (c : Nat)
    (h : embedTexts rc dims bs api texts = (.ok (v, ms), c)) : v.length = texts.length := by
  unfold embedTexts at h
  split at h
  · rename_i hemp
    cases h
    simp [List.isEmpty_iff.mp hemp]
  · have hsum := embedTextsGo_ok_length rc dims api (batched texts (max 1 bs)) 0 v ms c h
    rw [hsum, ← List.length_flatten, batched_join texts (max 1 bs) (Nat.le_max_left 1 bs)]

/-! ### Helper lemmas: retry loop on persistent errors -/

theorem embedBatchLoop_all_error {α : Type} (invoke : Nat → Except EmbError (List (List α)))
    (errs : Nat → EmbError) (h : ∀ k, invoke k = .error (errs k)) :
    ∀ (rem att : Nat), embedBatchLoop invoke att rem = (.error (errs (att + rem)), rem + 1) := by
  intro rem
  induction rem with
  | zero =>
    intro att
    unfold embedBatchLoop
    rw [h att]
    simp
  | succ r ih =>
    intro att
    unfold embedBatchLoop
    rw [h att, ih (att + 1)]
    have harith : att + 1 + r = att + (r + 1) := by omega
    rw [harith]

/-! ### Helper lemmas: local client -/

theorem convertVectors_ok {α : Type} (dim : Nat) :
    ∀ (vs ws : List (List α)), convertVectors dim vs = .ok ws → ws = vs := by
  intro vs
  induction vs with
  | nil => intro ws h; cases h; rfl
  | cons v rest ih =>
    intro ws h
    simp only [convertVectors] at h
    split at h
    · cases hr : convertVectors dim rest with
      | error e => rw [hr] at h; cases h
      | ok ws2 =>
        rw [hr] at h
        simp only [Except.map] at h
        cases h
        rw [ih ws2 hr]
    · cases h

theorem localEmbedTextsGo_ok {α : Type} (dim : Nat) (enc : String → List α) :
    ∀ (batches : List (List String)) (i : Nat) (v : List (List α)) (ms : List BatchMetrics),
      localEmbedTextsGo dim enc batches i = .ok (v, ms) →
      v = (batches.map fun b => b.map enc).flatten := by
  intro batches
  induction batches with
  | nil => intro i v ms h; cases h; rfl
  | cons b rest ih =>
    intro i v ms h
    have hshape : localEmbedTextsGo dim enc (b :: rest) i = (do
        let converted ← convertVectors dim (b.map enc)
        let tail ← localEmbedTextsGo dim enc rest (i + 1)
        Except.ok (converted ++ tail.1, (⟨i, b.length, 0⟩ : BatchMetrics) :: tail.2)) := rfl
    rw [hshape] at h
    cases hc : convertVectors dim (b.map enc) with
    | error e => rw [hc, bindErr] at h; cases h
    | ok conv =>
      rw [hc, bindOk] at h
      cases hr : localEmbedTextsGo dim enc rest (i + 1) with
      | error e => rw [hr, bindErr] at h; cases h
      | ok tail =>
        rw [hr, bindOk] at h
        cases h
        have hconv : conv = b.map enc := convertVectors_ok dim _ conv hc
        have htail : tail.1 = (rest.map fun c => c.map enc).flatten :=
          ih (i + 1) tail.1 tail.2 (by rw [hr])
        simp [hconv, htail]

theorem localEmbedTexts_ok_map {α : Type} (dim bs : Nat) (enc : String → List α)
    (texts : List String) (v : List (List α)) (ms : List BatchMetrics)
    (h : localEmbedTexts dim bs enc texts = .ok (v, ms)) : v = texts.map enc := by
  unfold localEmbedTexts at h
  split at h
  · rename_i hemp
    cases h
    simp [List.isEmpty_iff.mp hemp]
  · have hgo := localEmbedTextsGo_ok dim enc (batched texts (max 1 bs)) 0 v ms h
    rw [hgo, ← List.map_flatten, batched_join texts (max 1 bs) (Nat.le_max_left 1 bs)]

/-! ### Claim C2 -/

/-- C2 counterexample: with `retry_count = 1` and an endpoint whose response
always has an embedding of the wrong dimension (a format error), the batch
is invoked twice — the dimension-mismatch `EmbeddingError` *is* retried —
and the error finally raised carries `retry_count = 1`, not `0`.  This
contradicts the claim that embedding format errors are never retried. -/
theorem C2_counterexample :
    embedBatch 1 2 0 ["hello"] C2api
      = (.error ⟨.dimMismatch, none, 0, 1⟩, 2) ∧ (2 : Nat) ≠ 1 := by
  exact ⟨rfl, by decide⟩

/-- C2 (amended): every embedding format error raises a typed
`EmbeddingError` carrying the batch id and the attempt count, but format
errors are retried exactly like network and HTTP errors: `_embed_batch`
catches every `EmbeddingError` uniformly, performing `retry_count + 1`
invocations before re-raising the last attempt's error. -/
theorem C2_format_errors_retried :
    (∀ (dims bid att cnt : Nat) (outcome : HttpOutcome Int) (e : EmbError),
        invokeApi dims bid att cnt outcome = .error e →
        e.batchId = bid ∧ e.retryCount = att) ∧
    (∀ (rc dims bid : Nat) (texts : List String) (api : Nat → HttpOutcome Int)
        (errs : Nat → EmbError),
        (∀ k, invokeApi dims bid k texts.length (api k) = .error (errs k)) →
        embedBatch rc dims bid texts api = (.error (errs rc), rc + 1)) := by
  constructor
  · intro dims bid att cnt outcome e h
    exact invokeApi_error_fields dims bid att cnt outcome e h
  · intro rc dims bid texts api errs h
    unfold embedBatch
    rw [embedBatchLoop_all_error _ errs h rc 0]
    simp [Except.map]

/-- C2 witness: the amended theorem applied to a concrete dimension
mismatch (fields extracted from the error) and to a concrete persistently
failing endpoint (network errors, `retry_count = 2`, 3 invocations). -/
theorem C2_witness :
    ((⟨ErrKind.dimMismatch, none, 7, 3⟩ : EmbError).batchId = 7 ∧
      (⟨ErrKind.dimMismatch, none, 7, 3⟩ : EmbError).retryCount = 3) ∧
    embedBatch 2 2 9 ["x"] (fun _ => (HttpOutcome.requestError : HttpOutcome Int))
      = (.error ⟨.network, none, 9, 2⟩, 3) :=
  ⟨C2_format_errors_retried.1 2 7 3 1
      (.response 200 (some ⟨none, some [RawVec.vec [0]]⟩)) _ rfl,
    C2_format_errors_retried.2 2 2 9 ["x"] (fun _ => .requestError)
      (fun k => ⟨.network, none, 9, k⟩) (fun _ => rfl)⟩

/-! ### Claim C5 -/

/-- C5 (confirmed): `embed_texts` never returns a partial result — for the
remote client any successful return has exactly one embedding per input
text; against a well-behaved endpoint the output is exactly the input list
mapped through the embedding function, in input order; `embed_texts([])`
returns empty embeddings and metrics in both implementations; and the local
client's successful output is exactly the encoder mapped over the inputs in
order. -/
theorem C5_embed_order_total :
    (∀ (rc dims bs : Nat) (api : Nat → Nat → HttpOutcome Int) (texts : List String)
        (v : List (List Int)) (ms : List BatchMetrics) (c : Nat),
        embedTexts rc dims bs api texts = (.ok (v, ms), c) → v.length = texts.length) ∧
    (∀ (rc dims bs : Nat) (g : String → List Int), (∀ t, (g t).length = dims) →
        ∀ texts, (embedTexts rc dims bs (pointwiseApi g (batched texts (max 1 bs))) texts).1
          = .ok (texts.map g, successMetrics 0 (batched texts (max 1 bs)))) ∧
    (embedTexts 1 4 8 (fun _ _ => (HttpOutcome.requestError : HttpOutcome Int)) []
      = (.ok ([], []), 0)) ∧
    (∀ (dim bs : Nat) (enc : String → List Int) (texts : List String)
        (v : List (List Int)) (ms : List BatchMetrics),
        localEmbedTexts dim bs enc texts = .ok (v, ms) → v = texts.map enc) ∧
    (localEmbedTexts 4 8 (fun _ => ([] : List Int)) [] = .ok ([], [])) := by
  refine ⟨?_, ?_, rfl, ?_, rfl⟩
  · intro rc dims bs api texts v ms c h
    exact embedTexts_ok_length rc dims bs api texts v ms c h
  · intro rc dims bs g hdims texts
    rw [embedTexts_pointwise rc dims bs g hdims texts]
  · intro dim bs enc texts v ms h
    exact localEmbedTexts_ok_map dim bs enc texts v ms h

/-- C5 witness: the count conjunct applied to a concrete successful 3-text
run (3 texts in, 3 embeddings out) and the local conjunct applied to a
concrete 2-text run. -/
theorem C5_witness :
    ([[0, 0], [1, 1], [2, 2]] : List (List Int)).length
        = (["a", "b", "c"] : List String).length ∧
    ([[5], [5]] : List (List Int)) = (["x", "y"] : List String).map (fun _ => ([5] : List Int)) :=
  ⟨C5_embed_order_total.1 0 2 2 C5api ["a", "b", "c"]
      [[0, 0], [1, 1], [2, 2]] [⟨0, 2, 0⟩, ⟨1, 1, 0⟩] 2 rfl,
    C5_embed_order_total.2.2.2.1 1 8 (fun _ => ([5] : List Int)) ["x", "y"]
      [[5], [5]] [⟨0, 2, 0⟩] rfl⟩

/-! ### Claim C8 -/

/-- C8 (confirmed): `_batched` splits the input into `⌈n / b⌉` consecutive
windows whose concatenation is the input, every window except possibly the
final one holding exactly `b` texts and every window holding between 1 and
`b`; each batch is one HTTP request when it succeeds on the first attempt
(the total invocation count equals the batch count, and retries are per
batch as shown for C2); in particular 3 texts with `batch_size = 2` give
exactly 2 HTTP calls with batch sizes 2 and 1. -/
theorem C8_batch_partition :
    (∀ (texts : List String) (b : Nat), 1 ≤ b → (batched texts b).flatten = texts) ∧
    (∀ (texts : List String) (b : Nat), 1 ≤ b →
        (batched texts b).length = (texts.length + b - 1) / b) ∧
    (∀ (texts : List String) (b : Nat) (batch : List String),
        batch ∈ (batched texts b).dropLast → batch.length = b) ∧
    (∀ (texts : List String) (b : Nat) (batch : List String), 1 ≤ b →
        batch ∈ batched texts b → 0 < batch.length ∧ batch.length ≤ b) ∧
    (∀ (rc dims bs : Nat) (g : String → List Int), (∀ t, (g t).length = dims) →
        ∀ texts, (embedTexts rc dims bs (pointwiseApi g (batched texts (max 1 bs))) texts).2
          = (batched texts (max 1 bs)).length) ∧
    ((embedTexts 0 2 2 C5api ["a", "b", "c"]).2 = 2 ∧
      (batched ["a", "b", "c"] 2).map List.length = [2, 1]) := by
  refine ⟨?_, ?_, ?_, ?_, ?_, rfl, rfl⟩
  · intro texts b hb
    exact batched_join texts b hb
  · intro texts b hb
    exact batched_length texts b hb
  · intro texts b batch hmem
    exact batchedAux_dropLast b texts.length texts batch hmem
  · intro texts b batch hb hmem
    exact batchedAux_mem b hb texts.length texts batch hmem
  · intro rc dims bs g hdims texts
    rw [embedTexts_pointwise rc dims bs g hdims texts]

/-- C8 witness: the partition conjuncts applied to the concrete 3-text,
batch-size-2 example. -/
theorem C8_witness :
    (batched ["a", "b", "c"] 2).flatten = ["a", "b", "c"] ∧
    (batched ["a", "b", "c"] 2).length = 2 :=
  ⟨C8_batch_partition.1 ["a", "b", "c"] 2 (by decide),
    C8_batch_partition.2.1 ["a", "b", "c"] 2 (by decide)⟩

/-! ### Helper lemmas: chunk normalization -/

theorem dropWhile_length_le (p : Char → Bool) :
    ∀ (l : List Char), (l.dropWhile p).length ≤ l.length := by
  intro l
  induction l with
  | nil => simp
  | cons x xs ih =>
    rw [List.dropWhile_cons]
    split
    · exact Nat.le_succ_of_le ih
    · simp

theorem stripL_length_le (s : List Char) : (stripL s).length ≤ s.length := by
  unfold stripL
  have h1 : (s.dropWhile isPySpace).length ≤ s.length := dropWhile_length_le _ _
  have h2 : ((s.dropWhile isPySpace).reverse.dropWhile isPySpace).length
      ≤ (s.dropWhile isPySpace).reverse.length := dropWhile_length_le _ _
  rw [List.length_reverse]
  rw [List.length_reverse] at h2
  omega

theorem rfindIn_bounds (s : List Char) (c : Char) (start stop : Nat) :
    rfindIn s c start stop = -1 ∨
      ((start : Int) ≤ rfindIn s c start stop ∧ rfindIn s c start stop < (stop : Int)) := by
  unfold rfindIn
  have key : ∀ (l : List Nat) (acc : Int),
      (acc = -1 ∨ ((start : Int) ≤ acc ∧ acc < (stop : Int))) →
      (∀ i ∈ l, start ≤ i ∧ i < stop) →
      (l.foldl (fun a i => if s.get? i = some c then (i : Int) else a) acc = -1 ∨
        ((start : Int) ≤ l.foldl (fun a i => if s.get? i = some c then (i : Int) else a) acc ∧
          l.foldl (fun a i => if s.get? i = some c then (i : Int) else a) acc < (stop : Int))) := by
    intro l
    induction l with
    | nil => intro acc hacc _; simpa using hacc
    | cons j rest ih =>
      intro acc hacc hmem
      simp only [List.foldl_cons]
      apply ih
      · by_cases hj : s.get? j = some c
        · rw [if_pos hj]
          right
          have hjb := hmem j (by simp)
          omega
        · rw [if_neg hj]; exact hacc
      · intro i hi; exact hmem i (by simp [hi])
  apply key
  · exact Or.inl rfl
  · intro i hi
    rw [List.mem_range'_1] at hi
    omega

theorem splitAtPos_le (s : List Char) (maxC start : Nat) :
    splitAtPos s maxC start ≤ start + maxC := by
  have hE : min s.length (start + maxC) ≤ start + maxC := Nat.min_le_right _ _
  unfold splitAtPos
  by_cases h1 : min s.length (start + maxC) < s.length
  · rw [if_pos h1]
    by_cases h2 : (start : Int) + (maxC / 2 : Nat)
        < max (rfindIn s '\n' start (min s.length (start + maxC)))
            (rfindIn s ' ' start (min s.length (start + maxC)))
    · rw [if_pos h2]
      rcases rfindIn_bounds s '\n' start (min s.length (start + maxC)) with hnl | hnl <;>
        rcases rfindIn_bounds s ' ' start (min s.length (start + maxC)) with hsp | hsp <;>
        omega
    · rw [if_neg h2]; exact hE
  · rw [if_neg h1]; exact hE

theorem splitTextAux_bound (s : List Char) (maxC : Nat) :
    ∀ (fuel start : Nat) (seg : List Char),
      seg ∈ splitTextAux s maxC fuel start → 0 < seg.length ∧ seg.length ≤ maxC := by
  intro fuel
  induction fuel with
  | zero => intro start seg h; simp [splitTextAux] at h
  | succ n ih =>
    intro start seg h
    unfold splitTextAux at h
    split at h
    · rw [List.mem_append] at h
      rcases h with h | h
      · split at h
        · simp at h
        · rename_i hne
          rw [List.mem_singleton] at h
          subst h
          refine ⟨List.length_pos_of_ne_nil (fun hnil => hne (by rw [hnil]; rfl)), ?_⟩
          have hstrip := stripL_length_le ((s.drop start).take (splitAtPos s maxC start - start))
          have htake : ((s.drop start).take (splitAtPos s maxC start - start)).length
              ≤ splitAtPos s maxC start - start := by
            rw [List.length_take]
            omega
          have hsp := splitAtPos_le s maxC start
          omega
      · exact ih _ seg h
    · simp at h

theorem splitText_bound (s : List Char) (maxC : Nat) :
    ∀ seg ∈ splitText s maxC, seg.length ≤ maxC := by
  intro seg h
  unfold splitText at h
  split at h
  · rename_i hle
    rw [List.mem_singleton] at h
    subst h
    exact hle
  · exact (splitTextAux_bound s maxC _ 0 seg h).2

theorem boundInv_of (maxC : Nat) (norm : List (List Char × ChunkMeta))
    (buf : Option (List Char × ChunkMeta))
    (h1 : ∀ p ∈ norm, 0 < p.1.length ∧ p.1.length ≤ maxC)
    (h2 : ∀ p, buf = some p → 0 < p.1.length ∧ p.1.length ≤ maxC) :
    BoundInv maxC ⟨norm, buf⟩ := ⟨h1, h2⟩

theorem memBound_append (maxC : Nat) (l : List (List Char × ChunkMeta))
    (q : List Char × ChunkMeta)
    (hl : ∀ p ∈ l, 0 < p.1.length ∧ p.1.length ≤ maxC)
    (hq : 0 < q.1.length ∧ q.1.length ≤ maxC) :
    ∀ p ∈ l ++ [q], 0 < p.1.length ∧ p.1.length ≤ maxC := by
  intro p hp
  rw [List.mem_append] at hp
  rcases hp with hp | hp
  · exact hl p hp
  · rw [List.mem_singleton] at hp
    subst hp
    exact hq

theorem stepBuffer_inv (maxC : Nat) (meta : ChunkMeta) (st : NormState) (seg : List Char)
    (hseg : 0 < seg.length ∧ seg.length ≤ maxC) (hst : BoundInv maxC st) :
    BoundInv maxC (stepBuffer maxC meta st seg) := by
  rcases hbuf : st.buffer with _ | ⟨b, bm⟩
  · have hstep : stepBuffer maxC meta st seg = ⟨st.normalized, some (seg, meta)⟩ := by
      unfold stepBuffer
      rw [hbuf]
    rw [hstep]
    exact boundInv_of maxC _ _ hst.1 (fun p hp => by cases hp; exact hseg)
  · have hb := hst.2 (b, bm) hbuf
    have hstep : stepBuffer maxC meta st seg =
        if (b ++ chunkSep ++ seg).length ≤ maxC then
          ⟨st.normalized, some (b ++ chunkSep ++ seg, bm)⟩
        else ⟨st.normalized ++ [(b, bm)], some (seg, meta)⟩ := by
      unfold stepBuffer
      rw [hbuf]
    rw [hstep]
    by_cases hcand : (b ++ chunkSep ++ seg).length ≤ maxC
    · rw [if_pos hcand]
      refine boundInv_of maxC _ _ hst.1 (fun p hp => ?_)
      cases hp
      refine ⟨?_, hcand⟩
      simp only [List.length_append]
      omega
    · rw [if_neg hcand]
      exact boundInv_of maxC _ _ (memBound_append maxC _ _ hst.1 hb)
        (fun p hp => by cases hp; exact hseg)

theorem flushAtMin_inv (minC maxC : Nat) (st : NormState) (hst : BoundInv maxC st) :
    BoundInv maxC (flushAtMin minC st) := by
  rcases hbuf : st.buffer with _ | ⟨b, bm⟩
  · have hstep : flushAtMin minC st = st := by
      unfold flushAtMin
      rw [hbuf]
    rw [hstep]
    exact hst
  · have hb := hst.2 (b, bm) hbuf
    have hstep : flushAtMin minC st =
        if minC ≤ b.length then ⟨st.normalized ++ [(b, bm)], none⟩ else st := by
      unfold flushAtMin
      rw [hbuf]
    rw [hstep]
    by_cases hmin : minC ≤ b.length
    · rw [if_pos hmin]
      exact boundInv_of maxC _ _ (memBound_append maxC _ _ hst.1 hb)
        (fun p hp => by cases hp)
    · rw [if_neg hmin]
      exact hst

theorem processSegment_inv (minC maxC : Nat) (meta : ChunkMeta) (st : NormState)
    (seg : List Char) (hseg : seg.length ≤ maxC) (hst : BoundInv maxC st) :
    BoundInv maxC (processSegment minC maxC meta st seg) := by
  unfold processSegment
  split
  · exact hst
  · rename_i hne
    apply flushAtMin_inv
    apply stepBuffer_inv
    · refine ⟨?_, hseg⟩
      have : seg ≠ [] := by
        intro hnil
        rw [hnil] at hne
        exact hne rfl
      exact List.length_pos_of_ne_nil this
    · exact hst

theorem foldl_processSegment_inv (minC maxC : Nat) (meta : ChunkMeta) :
    ∀ (segs : List (List Char)) (st : NormState), BoundInv maxC st →
      (∀ seg ∈ segs, seg.length ≤ maxC) →
      BoundInv maxC (segs.foldl (processSegment minC maxC meta) st) := by
  intro segs
  induction segs with
  | nil => intro st hst _; exact hst
  | cons seg rest ih =>
    intro st hst hbound
    rw [List.foldl_cons]
    exact ih _ (processSegment_inv minC maxC meta st seg (hbound seg (by simp)) hst)
      (fun s hs => hbound s (by simp [hs]))

theorem processChunk_inv (minC maxC : Nat) (st : NormState) (chunk : ChunkData)
    (hst : BoundInv maxC st) : BoundInv maxC (processChunk minC maxC st chunk) := by
  unfold processChunk
  exact foldl_processSegment_inv minC maxC chunk.metadata _ st hst
    (splitText_bound (stripL chunk.text) maxC)

theorem foldl_processChunk_inv (minC maxC : Nat) :
    ∀ (chunks : List ChunkData) (st : NormState), BoundInv maxC st →
      BoundInv maxC (chunks.foldl (processChunk minC maxC) st) := by
  intro chunks
  induction chunks with
  | nil => intro st hst; exact hst
  | cons chunk rest ih =>
    intro st hst
    rw [List.foldl_cons]
    exact ih _ (processChunk_inv minC maxC st chunk hst)

theorem renumberAux_mem :
    ∀ (i : Nat) (l : List (List Char × ChunkMeta)) (c : ChunkData),
      c ∈ renumberAux i l → ∃ p ∈ l, c.text = p.1 ∧ c.characterCount = p.1.length := by
  intro i l
  induction l generalizing i with
  | nil => intro c h; cases h
  | cons p rest ih =>
    intro c h
    rcases p with ⟨t, m⟩
    rw [renumberAux, List.mem_cons] at h
    rcases h with h | h
    · subst h
      exact ⟨(t, m), by simp, rfl, rfl⟩
    · obtain ⟨q, hq, hqt, hqc⟩ := ih (i + 1) c h
      exact ⟨q, by simp [hq], hqt, hqc⟩

/-! ### Claim C1 -/

/-- C1 counterexample: with `min_chars = 10`, `max_chars = 12` and input
chunk texts `"abcdefgh"` and `"xyz"`, `enforce_character_bounds` returns
two chunks of character counts 8 and 3 — the *first* (non-final) chunk is
below `min_chars`, because appending `"xyz"` would have exceeded
`max_chars` and the mid-stream flush is forced.  This refutes the claim
that only the final flushed chunk may fall under `min_chars`. -/
theorem C1_counterexample :
    (enforceCharacterBounds C1exChunks 10 12).map (fun l => l.map ChunkData.characterCount)
      = .ok [8, 3] ∧ 8 < 10 := by
  exact ⟨rfl, by decide⟩

/-- C1 (amended): every chunk returned by `enforce_character_bounds` has a
positive character count that equals its text length and is at most
`max_chars`; chunks shorter than `min_chars` can appear at any position —
whenever a flush is forced, which happens both mid-stream (when appending
the next segment would overflow `max_chars`) and at the final flush — not
only as the last emitted chunk. -/
theorem C1_bounds (chunks : List ChunkData) (minC maxC : Nat) (out : List ChunkData)
    (hok : enforceCharacterBounds chunks minC maxC = .ok out) :
    ∀ c ∈ out, 0 < c.characterCount ∧ c.characterCount ≤ maxC ∧
      c.characterCount = c.text.length := by
  unfold enforceCharacterBounds at hok
  split at hok
  · cases hok
  split at hok
  · cases hok
  have hinv : BoundInv maxC (chunks.foldl (processChunk minC maxC) ⟨[], none⟩) :=
    foldl_processChunk_inv minC maxC chunks ⟨[], none⟩
      ⟨fun p hp => absurd hp (List.not_mem_nil p), fun p hp => Option.noConfusion hp⟩
  intro c hc
  have hout : out = renumberChunks
      (match (chunks.foldl (processChunk minC maxC) ⟨[], none⟩).buffer with
        | some (b, bm) => (chunks.foldl (processChunk minC maxC) ⟨[], none⟩).normalized ++ [(b, bm)]
        | none => (chunks.foldl (processChunk minC maxC) ⟨[], none⟩).normalized) := by
    cases hok
    rfl
  rw [hout] at hc
  obtain ⟨p, hp, htext, hcount⟩ := renumberAux_mem 0 _ c hc
  have hpbound : 0 < p.1.length ∧ p.1.length ≤ maxC := by
    rcases hbuf : (chunks.foldl (processChunk minC maxC) ⟨[], none⟩).buffer with _ | ⟨b, bm⟩
    · rw [hbuf] at hp
      exact hinv.1 p hp
    · rw [hbuf] at hp
      rw [List.mem_append] at hp
      rcases hp with hp | hp
      · exact hinv.1 p hp
      · rw [List.mem_singleton] at hp
        subst hp
        exact hinv.2 (b, bm) hbuf
  rw [hcount, htext]
  exact ⟨hpbound.1, hpbound.2, rfl⟩

/-- C1 witness: the amended theorem applied to a concrete run whose single
output chunk has 5 characters within bounds 3..50. -/
theorem C1_witness :
    0 < (⟨"hello".toList, C1okMeta, 5, some 1⟩ : ChunkData).characterCount ∧
      (⟨"hello".toList, C1okMeta, 5, some 1⟩ : ChunkData).characterCount ≤ 50 ∧
      (⟨"hello".toList, C1okMeta, 5, some 1⟩ : ChunkData).characterCount
        = (⟨"hello".toList, C1okMeta, 5, some 1⟩ : ChunkData).text.length :=
  C1_bounds [⟨"hello".toList, C1okMeta, 5, none⟩] 3 50
    [⟨"hello".toList, C1okMeta, 5, some 1⟩] rfl
    ⟨"hello".toList, C1okMeta, 5, some 1⟩ (by simp)

/-! ### Helper lemmas: store -/

theorem getAssoc_setAssoc_self {κ ν : Type} [DecidableEq κ] :
    ∀ (l : List (κ × ν)) (k : κ) (v : ν), getAssoc (setAssoc l k v) k = some v := by
  intro l
  induction l with
  | nil => intro k v; simp [setAssoc, getAssoc]
  | cons p rest ih =>
    intro k v
    by_cases hp : p.1 = k
    · simp [setAssoc, getAssoc, hp]
    · simp [setAssoc, getAssoc, hp, ih]

theorem upsertSource_chunks {α : Type} (s : Store α) (doc : Doc) (status : SourceStatus) :
    (upsertSource s doc status).2.chunks = s.chunks := by
  unfold upsertSource
  rcases getSourceByLocation s doc.location with _ | row <;> rfl

theorem markSourceStatus_chunks {α : Type} (s : Store α) (loc : String)
    (status : SourceStatus) (err : Option String) :
    (markSourceStatus s loc status err).chunks = s.chunks := by
  unfold markSourceStatus
  rcases getSourceByLocation s loc with _ | row <;> rfl

theorem markSourceFailed_chunks {α : Type} (s : Store α) (loc msg : String) :
    (markSourceFailed s loc msg).chunks = s.chunks := by
  unfold markSourceFailed
  exact markSourceStatus_chunks s loc .failed (some msg)

theorem upsertSource_lookup {α : Type} (s : Store α) (doc : Doc) (status : SourceStatus) :
    getSourceByLocation (upsertSource s doc status).2 doc.location
      = some (upsertSource s doc status).1 := by
  rcases h : getSourceByLocation s doc.location with _ | row <;>
    simp only [upsertSource, h] <;>
    exact getAssoc_setAssoc_self s.sources doc.location _

theorem markSourceStatus_lookup {α : Type} (s : Store α) (loc : String)
    (status : SourceStatus) (err : Option String) (row : SourceRowM)
    (h : getSourceByLocation s loc = some row) :
    getSourceByLocation (markSourceStatus s loc status err) loc =
      some ⟨row.id, row.location, row.documentName, row.contentHash, status, err⟩ := by
  simp only [markSourceStatus, h]
  exact getAssoc_setAssoc_self s.sources loc _

/-! ### Helper lemmas: single-document ingestion paths -/

theorem ingest_persistFail_eq {α : Type} (svc : Services α) (doc : Doc) (store : Store α)
    (chunks : List ChunkData) (embeddings : List (List α)) (msg : String)
    (hch : svc.chunker doc = .ok chunks) (hne : chunks ≠ [])
    (hemb : svc.embedder chunks = .ok embeddings)
    (hlen : chunks.length = embeddings.length)
    (hper : svc.persistErr doc = some msg) :
    ingestSingleDocument svc doc store =
      (⟨doc.location, .partlyIngested, (buildChunkRecords doc chunks embeddings).length, some msg⟩,
        markSourceStatus (upsertSource store doc .pending).2 doc.location
          .partlyIngested (some msg)) := by
  simp only [ingestSingleDocument, hch, hemb, hper]
  rw [if_neg (fun h => hne (List.isEmpty_iff.mp h)), if_neg (fun h => h hlen)]

theorem ingest_zeroChunks_eq {α : Type} (svc : Services α) (doc : Doc) (store : Store α)
    (hch : svc.chunker doc = .ok []) :
    ingestSingleDocument svc doc store =
      (⟨doc.location, .failed, 0, some "Document produced no chunks."⟩,
        markSourceFailed (upsertSource store doc .pending).2 doc.location
          "Document produced no chunks.") := by
  simp only [ingestSingleDocument, hch]
  rfl

/-! ### Claim C3 -/

/-- C3 counterexample: a document that chunks and embeds two chunks and
then fails the persistence write returns `partially_ingested` with
`chunks_ingested = 2`, not `0` — the failed write *is* counted, because
`chunk_count` is assigned from the built records before the write runs. -/
theorem C3_counterexample :
    (ingestSingleDocument C3svc exDoc emptyStore).1
      = ⟨"f.txt", .partlyIngested, 2, some "db down"⟩ ∧ (2 : Nat) ≠ 0 :=
  ⟨rfl, by decide⟩

/-- C3 (amended): for every document whose chunking and embedding succeed
(with at least one chunk) but whose persistence write raises,
`ingest_single_document` returns status `partially_ingested` with
`chunks_ingested` equal to the number of chunk records built (the failed
write is counted), the error message recorded, and the store's chunk rows
— including any prior rows for that source — unchanged. -/
theorem C3_partial_counts_built_chunks {α : Type} (svc : Services α) (doc : Doc)
    (store : Store α) (chunks : List ChunkData) (embeddings : List (List α)) (msg : String)
    (hch : svc.chunker doc = .ok chunks) (hne : chunks ≠ [])
    (hemb : svc.embedder chunks = .ok embeddings)
    (hlen : chunks.length = embeddings.length)
    (hper : svc.persistErr doc = some msg) :
    (ingestSingleDocument svc doc store).1.status = .partlyIngested ∧
    (ingestSingleDocument svc doc store).1.chunksIngested = chunks.length ∧
    (ingestSingleDocument svc doc store).1.error = some msg ∧
    (ingestSingleDocument svc doc store).2.chunks = store.chunks := by
  rw [ingest_persistFail_eq svc doc store chunks embeddings msg hch hne hemb hlen hper]
  refine ⟨rfl, ?_, rfl, ?_⟩
  · simp [buildChunkRecords, List.length_zip, hlen]
  · rw [markSourceStatus_chunks, upsertSource_chunks]

/-- C3 witness: the amended theorem applied to the concrete
two-chunk persistence failure. -/
theorem C3_witness :
    (ingestSingleDocument C3svc exDoc emptyStore).1.status = .partlyIngested ∧
    (ingestSingleDocument C3svc exDoc emptyStore).1.chunksIngested
      = [exChunkA, exChunkB].length ∧
    (ingestSingleDocument C3svc exDoc emptyStore).1.error = some "db down" ∧
    (ingestSingleDocument C3svc exDoc emptyStore).2.chunks = emptyStore.chunks :=
  C3_partial_counts_built_chunks C3svc exDoc emptyStore [exChunkA, exChunkB]
    [[0, 0], [0, 0]] "db down" rfl (by decide) rfl rfl rfl

/-! ### Helper lemmas: run loop steps -/

theorem runLoop_skip_cons {α : Type} (svc : Services α) (force : Bool) (mf : Option Nat)
    (d : Doc) (rest : List Doc) (st : RunState α)
    (h : shouldSkip force st.store d = true) :
    runLoop svc force mf (d :: rest) st =
      runLoop svc force mf rest
        { st with documents := st.documents ++ [skipResult d.location] } := by
  simp only [runLoop]
  rw [h]
  rfl

theorem runLoop_cons_ingested {α : Type} (svc : Services α) (force : Bool)
    (mf : Option Nat) (d : Doc) (rest : List Doc) (st : RunState α)
    (h : shouldSkip force st.store d = false)
    (hstatus : (ingestSingleDocument svc d st.store).1.status = .ingested) :
    runLoop svc force mf (d :: rest) st =
      runLoop svc force mf rest
        ⟨st.documents ++ [(ingestSingleDocument svc d st.store).1],
          st.documentsIngested + 1, st.documentsFailed,
          st.chunksCreated + (ingestSingleDocument svc d st.store).1.chunksIngested,
          st.failureCount, (ingestSingleDocument svc d st.store).2, st.processed ++ [d]⟩ := by
  simp only [runLoop]
  rw [h, if_neg (by simp), if_pos hstatus]

theorem runLoop_cons_failed_break {α : Type} (svc : Services α) (force : Bool)
    (mf : Option Nat) (d : Doc) (rest : List Doc) (st : RunState α)
    (h : shouldSkip force st.store d = false)
    (hstatus : ¬((ingestSingleDocument svc d st.store).1.status = .ingested))
    (hmax : hitMaxFailures mf (st.failureCount + 1) = true) :
    runLoop svc force mf (d :: rest) st =
      ⟨st.documents ++ [(ingestSingleDocument svc d st.store).1],
        st.documentsIngested, st.documentsFailed + 1, st.chunksCreated,
        st.failureCount + 1, (ingestSingleDocument svc d st.store).2,
        st.processed ++ [d]⟩ := by
  simp only [runLoop]
  rw [h, if_neg (by simp), if_neg hstatus, hmax, if_pos rfl]

theorem runLoop_cons_failed_cont {α : Type} (svc : Services α) (force : Bool)
    (mf : Option Nat) (d : Doc) (rest : List Doc) (st : RunState α)
    (h : shouldSkip force st.store d = false)
    (hstatus : ¬((ingestSingleDocument svc d st.store).1.status = .ingested))
    (hmax : hitMaxFailures mf (st.failureCount + 1) = false) :
    runLoop svc force mf (d :: rest) st =
      runLoop svc force mf rest
        ⟨st.documents ++ [(ingestSingleDocument svc d st.store).1],
          st.documentsIngested, st.documentsFailed + 1,
          st.chunksCreated + (ingestSingleDocument svc d st.store).1.chunksIngested,
          st.failureCount + 1, (ingestSingleDocument svc d st.store).2,
          st.processed ++ [d]⟩ := by
  simp only [runLoop]
  rw [h, if_neg (by simp), if_neg hstatus, hmax, if_neg (by simp)]

theorem runLoop_counts {α : Type} (svc : Services α) (force : Bool) (mf : Option Nat) :
    ∀ (docs : List Doc) (st : RunState α),
      (runLoop svc force mf docs st).documentsIngested +
        (runLoop svc force mf docs st).documentsFailed + st.processed.length =
      st.documentsIngested + st.documentsFailed +
        (runLoop svc force mf docs st).processed.length := by
  intro docs
  induction docs with
  | nil => intro st; rfl
  | cons d rest ih =>
    intro st
    cases hsk : shouldSkip force st.store d with
    | true =>
      rw [runLoop_skip_cons svc force mf d rest st hsk]
      exact ih _
    | false =>
      by_cases hstatus : (ingestSingleDocument svc d st.store).1.status = SourceStatus.ingested
      · rw [runLoop_cons_ingested svc force mf d rest st hsk hstatus]
        have h2 := ih ⟨st.documents ++ [(ingestSingleDocument svc d st.store).1],
          st.documentsIngested + 1, st.documentsFailed,
          st.chunksCreated + (ingestSingleDocument svc d st.store).1.chunksIngested,
          st.failureCount, (ingestSingleDocument svc d st.store).2, st.processed ++ [d]⟩
        dsimp only at h2 ⊢
        simp only [List.length_append, List.length_cons, List.length_nil] at h2 ⊢
        omega
      · cases hmax : hitMaxFailures mf (st.failureCount + 1) with
        | true =>
          rw [runLoop_cons_failed_break svc force mf d rest st hsk hstatus hmax]
          dsimp only
          simp only [List.length_append, List.length_cons, List.length_nil]
          omega
        | false =>
          rw [runLoop_cons_failed_cont svc force mf d rest st hsk hstatus hmax]
          have h2 := ih ⟨st.documents ++ [(ingestSingleDocument svc d st.store).1],
            st.documentsIngested, st.documentsFailed + 1,
            st.chunksCreated + (ingestSingleDocument svc d st.store).1.chunksIngested,
            st.failureCount + 1, (ingestSingleDocument svc d st.store).2, st.processed ++ [d]⟩
          dsimp only at h2 ⊢
          simp only [List.length_append, List.length_cons, List.length_nil] at h2 ⊢
          omega

theorem runLoop_force_none {α : Type} (svc : Services α) :
    ∀ (docs : List Doc) (st : RunState α),
      (runLoop svc true none docs st).processed = st.processed ++ docs := by
  intro docs
  induction docs with
  | nil => intro st; simp [runLoop]
  | cons d rest ih =>
    intro st
    have hsk : shouldSkip true st.store d = false := by simp [shouldSkip]
    by_cases hstatus : (ingestSingleDocument svc d st.store).1.status = SourceStatus.ingested
    · rw [runLoop_cons_ingested svc true none d rest st hsk hstatus]
      rw [ih]
      simp
    · rw [runLoop_cons_failed_cont svc true none d rest st hsk hstatus rfl]
      rw [ih]
      simp

/-! ### Claim C6 -/

/-- C6 (confirmed): a document whose chunker returns zero chunks yields a
FAILED result with zero chunks and the "no chunks" error; the deferred
cleanup marks its source row `failed`; the store's chunk rows are
untouched; and a single-document run counts it in `documents_failed` (and
not in `documents_ingested`). -/
theorem C6_zero_chunks {α : Type} (svc : Services α) (doc : Doc) (store : Store α)
    (force : Bool) (mf : Option Nat)
    (hch : svc.chunker doc = .ok [])
    (hskip : shouldSkip force store doc = false) :
    (ingestSingleDocument svc doc store).1
      = ⟨doc.location, .failed, 0, some "Document produced no chunks."⟩ ∧
    (ingestSingleDocument svc doc store).2.chunks = store.chunks ∧
    (getSourceByLocation (ingestSingleDocument svc doc store).2 doc.location).map
        SourceRowM.status = some .failed ∧
    (runIngestionJob svc force mf [doc] store).documentsFailed = 1 ∧
    (runIngestionJob svc force mf [doc] store).documentsIngested = 0 ∧
    (runIngestionJob svc force mf [doc] store).finalStore.chunks = store.chunks := by
  have hstep := ingest_zeroChunks_eq svc doc store hch
  have hres : (ingestSingleDocument svc doc store).1
      = ⟨doc.location, .failed, 0, some "Document produced no chunks."⟩ := by rw [hstep]
  have hchunks : (ingestSingleDocument svc doc store).2.chunks = store.chunks := by
    rw [hstep]
    show (markSourceFailed (upsertSource store doc .pending).2 doc.location
      "Document produced no chunks.").chunks = store.chunks
    rw [markSourceFailed_chunks, upsertSource_chunks]
  have hlookup : (getSourceByLocation (ingestSingleDocument svc doc store).2 doc.location).map
      SourceRowM.status = some .failed := by
    rw [hstep]
    show (getSourceByLocation (markSourceFailed (upsertSource store doc .pending).2 doc.location
      "Document produced no chunks.") doc.location).map SourceRowM.status = some .failed
    unfold markSourceFailed
    rw [markSourceStatus_lookup _ _ _ _ _ (upsertSource_lookup store doc .pending)]
    rfl
  have hloop : (runLoop svc force mf [doc] ⟨[], 0, 0, 0, 0, store, []⟩).documentsFailed = 1 ∧
      (runLoop svc force mf [doc] ⟨[], 0, 0, 0, 0, store, []⟩).documentsIngested = 0 ∧
      (runLoop svc force mf [doc] ⟨[], 0, 0, 0, 0, store, []⟩).store.chunks = store.chunks := by
    have hstat : ¬((ingestSingleDocument svc doc
        (⟨[], 0, 0, 0, 0, store, []⟩ : RunState α).store).1.status = SourceStatus.ingested) := by
      show ¬((ingestSingleDocument svc doc store).1.status = SourceStatus.ingested)
      rw [hres]
      simp
    cases hmax : hitMaxFailures mf ((⟨[], 0, 0, 0, 0, store, []⟩ : RunState α).failureCount + 1) with
    | true =>
      rw [runLoop_cons_failed_break svc force mf doc [] ⟨[], 0, 0, 0, 0, store, []⟩ hskip hstat hmax]
      refine ⟨rfl, rfl, ?_⟩
      show (ingestSingleDocument svc doc store).2.chunks = store.chunks
      exact hchunks
    | false =>
      rw [runLoop_cons_failed_cont svc force mf doc [] ⟨[], 0, 0, 0, 0, store, []⟩ hskip hstat hmax]
      refine ⟨rfl, rfl, ?_⟩
      show (ingestSingleDocument svc doc store).2.chunks = store.chunks
      exact hchunks
  exact ⟨hres, hchunks, hlookup, hloop.1, hloop.2.1, hloop.2.2⟩

/-- C6 witness: the theorem applied to a concrete chunker returning zero
chunks on a fresh store. -/
theorem C6_witness :
    ((ingestSingleDocument (⟨fun _ => .ok [], fun _ => .ok [], fun _ => none⟩ : Services Int)
        exDoc emptyStore).1
      = ⟨"f.txt", .failed, 0, some "Document produced no chunks."⟩ ∧
    (ingestSingleDocument (⟨fun _ => .ok [], fun _ => .ok [], fun _ => none⟩ : Services Int)
        exDoc emptyStore).2.chunks = emptyStore.chunks ∧
    (getSourceByLocation (ingestSingleDocument
        (⟨fun _ => .ok [], fun _ => .ok [], fun _ => none⟩ : Services Int)
        exDoc emptyStore).2 exDoc.location).map SourceRowM.status = some .failed ∧
    (runIngestionJob (⟨fun _ => .ok [], fun _ => .ok [], fun _ => none⟩ : Services Int)
        true none [exDoc] emptyStore).documentsFailed = 1 ∧
    (runIngestionJob (⟨fun _ => .ok [], fun _ => .ok [], fun _ => none⟩ : Services Int)
        true none [exDoc] emptyStore).documentsIngested = 0 ∧
    (runIngestionJob (⟨fun _ => .ok [], fun _ => .ok [], fun _ => none⟩ : Services Int)
        true none [exDoc] emptyStore).finalStore.chunks = emptyStore.chunks) :=
  C6_zero_chunks ⟨fun _ => .ok [], fun _ => .ok [], fun _ => none⟩ exDoc emptyStore
    true none rfl rfl

/-! ### Claim C9 -/

/-- C9 (confirmed): `documents_ingested + documents_failed` always equals
the number of documents actually handed to `ingest_single_document`; a
skipped document is appended to the run's `documents` list as the
synthetic result (status INGESTED, zero chunks, informational message)
without touching any counter or the store; and a concrete skipped run
shows the processed count strictly below `documents_discovered`. -/
theorem C9_skip_not_counted :
    (∀ (svc : Services Int) (force : Bool) (mf : Option Nat) (docs : List Doc)
        (store : Store Int),
        (runIngestionJob svc force mf docs store).documentsIngested +
          (runIngestionJob svc force mf docs store).documentsFailed
          = (runIngestionJob svc force mf docs store).processed.length) ∧
    (∀ (svc : Services Int) (force : Bool) (mf : Option Nat) (d : Doc) (rest : List Doc)
        (st : RunState Int), shouldSkip force st.store d = true →
        runLoop svc force mf (d :: rest) st =
          runLoop svc force mf rest
            { st with documents := st.documents ++ [skipResult d.location] }) ∧
    (∀ loc : String, skipResult loc
        = ⟨loc, .ingested, 0, some "Skipped (content hash unchanged)."⟩) ∧
    ((runIngestionJob trivSvc false none [exDoc] seededStore).documents
        = [skipResult "f.txt"] ∧
      (runIngestionJob trivSvc false none [exDoc] seededStore).documentsIngested = 0 ∧
      (runIngestionJob trivSvc false none [exDoc] seededStore).documentsFailed = 0 ∧
      (runIngestionJob trivSvc false none [exDoc] seededStore).processed.length
        < (runIngestionJob trivSvc false none [exDoc] seededStore).documentsDiscovered) := by
  refine ⟨?_, ?_, fun loc => rfl, rfl, rfl, rfl, by decide⟩
  · intro svc force mf docs store
    have h := runLoop_counts svc force mf docs ⟨[], 0, 0, 0, 0, store, []⟩
    show (runLoop svc force mf docs ⟨[], 0, 0, 0, 0, store, []⟩).documentsIngested +
        (runLoop svc force mf docs ⟨[], 0, 0, 0, 0, store, []⟩).documentsFailed
        = (runLoop svc force mf docs ⟨[], 0, 0, 0, 0, store, []⟩).processed.length
    dsimp only at h
    simp only [List.length_nil] at h
    omega
  · intro svc force mf d rest st h
    exact runLoop_skip_cons svc force mf d rest st h

/-- C9 witness: the counting conjunct and the skip-step conjunct applied
to the concrete skipped run. -/
theorem C9_witness :
    ((runIngestionJob trivSvc false none [exDoc] seededStore).documentsIngested +
      (runIngestionJob trivSvc false none [exDoc] seededStore).documentsFailed
      = (runIngestionJob trivSvc false none [exDoc] seededStore).processed.length) ∧
    runLoop trivSvc false none [exDoc] ⟨[], 0, 0, 0, 0, seededStore, []⟩ =
      runLoop trivSvc false none []
        { (⟨[], 0, 0, 0, 0, seededStore, []⟩ : RunState Int) with
          documents := [] ++ [skipResult exDoc.location] } :=
  ⟨C9_skip_not_counted.1 trivSvc false none [exDoc] seededStore,
    C9_skip_not_counted.2.1 trivSvc false none exDoc [] ⟨[], 0, 0, 0, 0, seededStore, []⟩ rfl⟩

/-! ### Claim C10 -/

/-- C10 (confirmed): when a document's failure reaches the `max_failures`
threshold the loop breaks before the `stats.chunks_created` accumulation
line, so the triggering document's `chunks_ingested` is not added
(`chunksCreated` is returned unchanged); when the threshold is not hit the
document's `chunks_ingested` is accumulated before the loop continues. -/
theorem C10_break_skips_chunk_accumulation :
    (∀ (svc : Services Int) (force : Bool) (mf : Option Nat) (d : Doc) (rest : List Doc)
        (st : RunState Int),
        shouldSkip force st.store d = false →
        (ingestSingleDocument svc d st.store).1.status ≠ .ingested →
        hitMaxFailures mf (st.failureCount + 1) = true →
        (runLoop svc force mf (d :: rest) st).chunksCreated = st.chunksCreated ∧
        runLoop svc force mf (d :: rest) st =
          ⟨st.documents ++ [(ingestSingleDocument svc d st.store).1], st.documentsIngested,
            st.documentsFailed + 1, st.chunksCreated, st.failureCount + 1,
            (ingestSingleDocument svc d st.store).2, st.processed ++ [d]⟩) ∧
    (∀ (svc : Services Int) (force : Bool) (mf : Option Nat) (d : Doc) (rest : List Doc)
        (st : RunState Int),
        shouldSkip force st.store d = false →
        (ingestSingleDocument svc d st.store).1.status ≠ .ingested →
        hitMaxFailures mf (st.failureCount + 1) = false →
        runLoop svc force mf (d :: rest) st =
          runLoop svc force mf rest
            ⟨st.documents ++ [(ingestSingleDocument svc d st.store).1], st.documentsIngested,
              st.documentsFailed + 1,
              st.chunksCreated + (ingestSingleDocument svc d st.store).1.chunksIngested,
              st.failureCount + 1, (ingestSingleDocument svc d st.store).2,
              st.processed ++ [d]⟩) := by
  constructor
  · intro svc force mf d rest st hsk hstatus hmax
    rw [runLoop_cons_failed_break svc force mf d rest st hsk hstatus hmax]
    exact ⟨rfl, rfl⟩
  · intro svc force mf d rest st hsk hstatus hmax
    exact runLoop_cons_failed_cont svc force mf d rest st hsk hstatus hmax

/-- C10 witness: a partially-ingested document with 2 built chunks trips
`max_failures = 1`; the final `chunksCreated` stays 0 even though the
result carries `chunks_ingested = 2`. -/
theorem C10_witness :
    (runLoop C3svc true (some 1) [exDoc] ⟨[], 0, 0, 0, 0, emptyStore, []⟩).chunksCreated = 0 ∧
    runLoop C3svc true (some 1) [exDoc] ⟨[], 0, 0, 0, 0, emptyStore, []⟩ =
      ⟨[⟨"f.txt", .partlyIngested, 2, some "db down"⟩], 0, 1, 0, 1,
        (ingestSingleDocument C3svc exDoc emptyStore).2, [exDoc]⟩ :=
  C10_break_skips_chunk_accumulation.1 C3svc true (some 1) exDoc []
    ⟨[], 0, 0, 0, 0, emptyStore, []⟩ rfl (by decide) rfl

/-! ### Claim C4 -/

/-- C4 counterexample: with `force_reingest = true` and `max_failures = 1`
over two discovered documents whose first fails, the loop breaks and the
second discovered document is never reprocessed — contradicting "with
force_reingest true every discovered document is reprocessed
unconditionally". -/
theorem C4_counterexample :
    (runIngestionJob failSvc true (some 1) [exDoc, exDoc2] emptyStore).processed = [exDoc] ∧
    (runIngestionJob failSvc true (some 1) [exDoc, exDoc2] emptyStore).documentsDiscovered = 2 ∧
    ¬(exDoc2 ∈ (runIngestionJob failSvc true (some 1) [exDoc, exDoc2] emptyStore).processed) :=
  ⟨rfl, rfl, by decide⟩

/-- C4 (amended): a document whose location has a source record with an
identical fingerprint is, when `force_reingest` is false and the loop
reaches it, recorded as the synthetic skipped result with no
chunking/embedding/persistence call; with `force_reingest` true and no
`max_failures` abort every discovered document is reprocessed (an early
abort can end the run before later documents are examined); and
`has_content_changed` returns true exactly when no prior record exists or
the fingerprint differs. -/
theorem C4_skip_and_force :
    (∀ (svc : Services Int) (mf : Option Nat) (d : Doc) (rest : List Doc) (st : RunState Int)
        (row : SourceRowM),
        getSourceByLocation st.store d.location = some row →
        row.contentHash = d.contentHash →
        runLoop svc false mf (d :: rest) st =
          runLoop svc false mf rest
            { st with documents := st.documents ++ [skipResult d.location] }) ∧
    (∀ (svc : Services Int) (docs : List Doc) (store : Store Int),
        (runIngestionJob svc true none docs store).processed = docs) ∧
    (∀ d : Doc, hasContentChanged d none = true) ∧
    (∀ (d : Doc) (row : SourceRowM),
        hasContentChanged d (some row) = true ↔ d.contentHash ≠ row.contentHash) := by
  refine ⟨?_, ?_, fun d => rfl, ?_⟩
  · intro svc mf d rest st row hrow hhash
    apply runLoop_skip_cons
    simp [shouldSkip, hrow, hasContentChanged, hhash]
  · intro svc docs store
    have h := runLoop_force_none svc docs ⟨[], 0, 0, 0, 0, store, []⟩
    show (runLoop svc true none docs ⟨[], 0, 0, 0, 0, store, []⟩).processed = docs
    rw [h]
    simp
  · intro d row
    simp [hasContentChanged]

/-- C4 witness: the skip conjunct applied to the concrete seeded store and
the force conjunct applied to a concrete one-document run. -/
theorem C4_witness :
    (runLoop trivSvc false none [exDoc] ⟨[], 0, 0, 0, 0, seededStore, []⟩ =
      runLoop trivSvc false none []
        { (⟨[], 0, 0, 0, 0, seededStore, []⟩ : RunState Int) with
          documents := [] ++ [skipResult exDoc.location] }) ∧
    (runIngestionJob trivSvc true none [exDoc2] emptyStore).processed = [exDoc2] :=
  ⟨C4_skip_and_force.1 trivSvc none exDoc [] ⟨[], 0, 0, 0, 0, seededStore, []⟩
      ⟨0, "f.txt", "f.txt", "h1", .ingested, none⟩ rfl rfl,
    C4_skip_and_force.2.1 trivSvc [exDoc2] emptyStore⟩

/-! ### Claim C7 -/

/-- C7 counterexample: `create_pipeline_runtime(cfg)` runs before the
`try` block of `run_ingestion_skill`, so a failure while creating the
runtime (e.g. a missing database URL) propagates to the caller instead of
becoming a structured response — the skill *can* raise. -/
theorem C7_counterexample :
    runIngestionSkill "rag" (Except.error "RAG_DATABASE_URL must be configured.")
        (Except.ok C7outcome)
      = Except.error "RAG_DATABASE_URL must be configured." := rfl

/-- C7 (amended): once the pipeline runtime has been created, the skill
never raises: every job outcome yields a structured response, and on any
failure inside the run — `FileNotFoundError` (e.g. missing source
directories) or any other exception — the response's warnings list is
non-empty and describes the failure.  A failure while creating the
runtime, before the `try` block, still propagates to the caller. -/
theorem C7_no_raise_after_runtime :
    ∀ (pid : String) (job : Except JobError (IngestionResultM Int)),
      ∃ resp : SkillResponse, runIngestionSkill pid (Except.ok ()) job = Except.ok resp ∧
        (∀ e, job = Except.error e → resp.warnings ≠ []) ∧
        (∀ m, job = Except.error (.fileNotFound m) → resp.warnings = [m]) ∧
        (∀ m, job = Except.error (.other m) →
          resp.warnings = ["Ingestion failed: " ++ m]) := by
  intro pid job
  cases job with
  | ok r =>
    refine ⟨_, rfl, ?_, ?_, ?_⟩
    · intro e he; cases he
    · intro m hm; cases hm
    · intro m hm; cases hm
  | error e =>
    cases e with
    | fileNotFound m =>
      refine ⟨_, rfl, ?_, ?_, ?_⟩
      · intro e2 he
        simp
      · intro m2 hm
        injection hm with h1
        injection h1 with h2
        subst h2
        rfl
      · intro m2 hm
        injection hm with h1
        exact JobError.noConfusion h1
    | other m =>
      refine ⟨_, rfl, ?_, ?_, ?_⟩
      · intro e2 he
        simp
      · intro m2 hm
        injection hm with h1
        exact JobError.noConfusion h1
      · intro m2 hm
        injection hm with h1
        injection h1 with h2
        subst h2
        rfl

/-- C7 witness: the amended theorem applied to a concrete
`FileNotFoundError` job failure. -/
theorem C7_witness :
    ∃ resp : SkillResponse,
      runIngestionSkill "rag" (Except.ok ())
          (Except.error (JobError.fileNotFound "missing dir")
            : Except JobError (IngestionResultM Int))
        = Except.ok resp ∧
        (∀ e, (Except.error (JobError.fileNotFound "missing dir")
            : Except JobError (IngestionResultM Int)) = Except.error e →
          resp.warnings ≠ []) ∧
        (∀ m, (Except.error (JobError.fileNotFound "missing dir")
            : Except JobError (IngestionResultM Int)) = Except.error (.fileNotFound m) →
          resp.warnings = [m]) ∧
        (∀ m, (Except.error (JobError.fileNotFound "missing dir")
            : Except JobError (IngestionResultM Int)) = Except.error (.other m) →
          resp.warnings = ["Ingestion failed: " ++ m]) :=
  C7_no_raise_after_runtime "rag" (Except.error (JobError.fileNotFound "missing dir"))

end DynamousRag
